import Mathlib

/-! FAT12 reader (`src/tools/fat/fat12_reader.c`)

A shallow embedding of the FAT12 reader of LARI OS and theorems about it.

Conventions of the embedding.

* A byte (`uint8_t`) is a `Fin 256`; a fixed-width field of a packed structure is a
  `Fin (2 ^ w)`. Every computation is carried out on the natural-number (or integer)
  values, with an explicit `% 2 ^ w` wherever the C code converts to a `w`-bit type.
* The disk image behind the `FILE*` is the list of its bytes.
* The globals `g_BootSector`, `g_Fat`, `g_RootDirectory`, `g_RootDirectoryEnd` are the
  fields of `Globals`, passed explicitly.
* `readFile` writes through a moving pointer and calls `readSectors`; the embedding
  threads the cursor, the bytes stored so far and the list of `readSectors` calls
  issued through `ReadState`.
* The `do ... while` loop of `readFile` need not terminate, so it is run with fuel,
  one unit for each execution of its body; a FAT access outside `g_Fat` is undefined
  in C and is reported as `Outcome.undefinedBehaviour`, with the state in which the
  access is made.
-/

set_option maxRecDepth 8192

namespace Fat12

/-- A byte, `uint8_t`. -/
abbrev Byte := Fin 256

/-- The packed `BootSector` structure (BPB and EBR), 62 bytes on disk. -/
structure BootSector where
  BootJumpInstruction : List Byte
  OemIdentifier : List Byte
  BytesPerSector : Fin 65536
  SectorsPerCluster : Fin 256
  ReservedSectors : Fin 65536
  FatCount : Fin 256
  DirEntryCount : Fin 65536
  TotalSectors : Fin 65536
  MediaDescriptorType : Fin 256
  SectorsPerFat : Fin 65536
  SectorsPerTrack : Fin 65536
  Heads : Fin 65536
  HiddenSectors : Fin 4294967296
  LargeSectorCount : Fin 4294967296
  DriveNumber : Fin 256
  _Reserved : Fin 256
  Signature : Fin 256
  VolumeId : Fin 4294967296
  VolumeLabel : List Byte
  SystemId : List Byte
  deriving DecidableEq, Repr

/-- The packed `DirectoryEntry` structure, 32 bytes on disk. -/
structure DirectoryEntry where
  Name : List Byte
  Attributes : Fin 256
  _Reserved : Fin 256
  CreatedTimeTenths : Fin 256
  CreatedTime : Fin 65536
  CreatedDate : Fin 65536
  AccessedDate : Fin 65536
  FirstClusterHigh : Fin 65536
  ModifiedTime : Fin 65536
  ModifiedDate : Fin 65536
  FirstClusterLow : Fin 65536
  Size : Fin 4294967296
  deriving DecidableEq, Repr

/-- The value of `sizeof(DirectoryEntry)`: 11 + 1 + 1 + 1 + 6 * 2 + 2 + 4 bytes. -/
def sizeofDirectoryEntry : Nat := 32

/-- The global variables of the program. `g_Fat` and `g_RootDirectory` are the
contents of the two `malloc`ed regions; `g_RootDirectoryEnd` is a `uint32_t`. -/
structure Globals where
  g_BootSector : BootSector
  g_Fat : List Byte
  g_RootDirectory : List Byte
  g_RootDirectoryEnd : Fin 4294967296
  deriving DecidableEq, Repr

/-- Conversion of a natural number to `uint32_t`. -/
def toU32 (x : Nat) : Fin 4294967296 := ⟨x % 4294967296, Nat.mod_lt _ (by decide)⟩

/-- The call `fread(buf, size, count, disk)` with the stream positioned at byte `pos`:
the number of complete items read, and the bytes transferred to `buf`. A read of
zero-sized items, or of zero items, transfers nothing and returns 0. -/
def fread (disk : List Byte) (pos size count : Nat) : Nat × List Byte :=
  let data := (disk.drop pos).take (size * count)
  (if size = 0 then 0 else data.length / size, data)

/-- `readSectors(disk, lba, count, bufferOut)`: the returned `ok` and the bytes stored
at `bufferOut`. The offset `lba * BytesPerSector` is an `unsigned int` product;
`fseek` to a non-negative offset of a regular file returns 0, also past its end. -/
def readSectors (G : Globals) (disk : List Byte) (lba count : Nat) : Bool × List Byte :=
  let pos := (lba * G.g_BootSector.BytesPerSector.val) % 4294967296
  let r := fread disk pos G.g_BootSector.BytesPerSector.val count
  (decide (r.1 = count), r.2)

/-- `readFat(disk)`: the returned `ok` and the globals with `g_Fat` loaded: the buffer
holds what the read of `SectorsPerFat` sectors at LBA `ReservedSectors` transfers. -/
def readFat (G : Globals) (disk : List Byte) : Bool × Globals :=
  let r := readSectors G disk G.g_BootSector.ReservedSectors.val G.g_BootSector.SectorsPerFat.val
  (r.1, { G with g_Fat := r.2 })

/-- The local `lba` of `readRootDirectory`. -/
def rootDirectoryLba (b : BootSector) : Nat :=
  (b.ReservedSectors.val + b.SectorsPerFat.val * b.FatCount.val) % 4294967296

/-- The local `size` of `readRootDirectory`. -/
def rootDirectorySize (b : BootSector) : Nat :=
  (sizeofDirectoryEntry * b.DirEntryCount.val) % 4294967296

/-- The local `sectors` of `readRootDirectory` after the rounding step. -/
def rootDirectorySectors (b : BootSector) : Nat :=
  let size := rootDirectorySize b
  let sectors := size / b.BytesPerSector.val
  if size % b.BytesPerSector.val > 0 then (sectors + 1) % 4294967296 else sectors

/-- `readRootDirectory(disk)`: the returned `ok` and the globals with
`g_RootDirectoryEnd` and `g_RootDirectory` set. With `BytesPerSector = 0` the
division is undefined and the result is `none`. -/
def readRootDirectory (G : Globals) (disk : List Byte) : Option (Bool × Globals) :=
  if G.g_BootSector.BytesPerSector.val = 0 then none
  else
    let lba := rootDirectoryLba G.g_BootSector
    let sectors := rootDirectorySectors G.g_BootSector
    let r := readSectors G disk lba sectors
    some (r.1, { G with g_RootDirectoryEnd := toU32 (lba + sectors), g_RootDirectory := r.2 })

/-- The `Name` field of `g_RootDirectory[i]`: the 11 bytes at offset `32 * i`. A slot
that reaches past the end of the buffer (outside the `malloc`ed region in C) yields
the shorter list of the bytes that exist. -/
def entryName (dir : List Byte) (i : Nat) : List Byte :=
  (dir.drop (sizeofDirectoryEntry * i)).take 11

/-- The loop of `findFile` from index `i` with `n` iterations left. -/
def findFileFrom (dir : List Byte) (name : List Byte) : Nat → Nat → Option Nat
  | 0, _ => none
  | n + 1, i => if name.take 11 = entryName dir i then some i else findFileFrom dir name n (i + 1)

/-- `findFile(name)`: the index `i` of the returned `&g_RootDirectory[i]`, or `none`
for `NULL`. `memcmp(name, g_RootDirectory[i].Name, 11) == 0` compares the first 11
bytes of `name` with the 11 bytes of the name field. -/
def findFile (G : Globals) (name : List Byte) : Option Nat :=
  findFileFrom G.g_RootDirectory name G.g_BootSector.DirEntryCount.val 0

/-- The load `*(uint16_t*)(mem + off)` on a little-endian machine; `none` when one
of the two bytes lies outside `mem`. -/
def loadU16 (mem : List Byte) (off : Nat) : Option Nat :=
  match mem[off]?, mem[off + 1]? with
  | some lo, some hi => some (lo.val + 256 * hi.val)
  | _, _ => none

/-- The decoding step of `readFile`: the value assigned to `currentCluster` (a
`uint16_t`) from the FAT entry of `currentCluster`. -/
def nextCluster (g_Fat : List Byte) (currentCluster : Nat) : Option Nat :=
  let fatIndex := currentCluster * 3 / 2
  if currentCluster % 2 = 0 then
    (loadU16 g_Fat fatIndex).map (fun v => (v &&& 0x0FFF) % 65536)
  else
    (loadU16 g_Fat fatIndex).map (fun v => (v >>> 4) % 65536)

/-- The local `lba` of `readFile`: `currentCluster - 2` and the product are `int`
values, the sum with the `uint32_t` `g_RootDirectoryEnd` is reduced modulo `2 ^ 32`. -/
def clusterLba (G : Globals) (currentCluster : Nat) : Nat :=
  (((G.g_RootDirectoryEnd.val : Int)
      + ((currentCluster : Int) - 2) * (G.g_BootSector.SectorsPerCluster.val : Int))
    % 4294967296).toNat

/-- The state of `readFile`: its locals `ok` and `currentCluster`, the offset of
`outputBuffer` from its initial value, the bytes stored through `outputBuffer` so
far, and the `readSectors` calls issued so far as pairs `(lba, count)`. -/
structure ReadState where
  ok : Bool
  currentCluster : Nat
  outputBuffer : Nat
  written : List Byte
  reads : List (Nat × Nat)
  deriving DecidableEq, Repr

/-- The result of running `readFile` with fuel: it returned `a`; or it made a FAT
access outside `g_Fat`, in the state `s` that the statements before the access have
left; or the fuel ran out, each unit of fuel paying for one execution of the loop
body, with the loop about to run again at state `s`. -/
inductive Outcome (α : Type) where
  | returned (a : α)
  | undefinedBehaviour (s : ReadState)
  | outOfFuel (s : ReadState)
  deriving DecidableEq, Repr

/-- The statements of the loop body of `readFile` that precede the FAT access: the
computation of `lba`, the call of `readSectors` and the advance of `outputBuffer`.
`currentCluster` is not changed. -/
def fetchCluster (G : Globals) (disk : List Byte) (s : ReadState) : ReadState :=
  let spc := G.g_BootSector.SectorsPerCluster.val
  let lba := clusterLba G s.currentCluster
  let r := if s.ok then readSectors G disk lba spc else (false, [])
  { ok := s.ok && r.1
    currentCluster := s.currentCluster
    outputBuffer := s.outputBuffer + spc * G.g_BootSector.BytesPerSector.val
    written := s.written ++ r.2
    reads := if s.ok then s.reads ++ [(lba, spc)] else s.reads }

/-- One execution of the body of the `do ... while` loop of `readFile`. The `&&`
skips the call of `readSectors` when `ok` is already false. -/
def loopBody (G : Globals) (disk : List Byte) (s : ReadState) : Option ReadState :=
  let spc := G.g_BootSector.SectorsPerCluster.val
  let lba := clusterLba G s.currentCluster
  let r := if s.ok then readSectors G disk lba spc else (false, [])
  match nextCluster G.g_Fat s.currentCluster with
  | none => none
  | some next =>
    some { ok := s.ok && r.1
           currentCluster := next
           outputBuffer := s.outputBuffer + spc * G.g_BootSector.BytesPerSector.val
           written := s.written ++ r.2
           reads := if s.ok then s.reads ++ [(lba, spc)] else s.reads }

/-- The `do ... while (ok && currentCluster < 0x0FF7)` loop of `readFile`. When the
FAT access of the body lies outside `g_Fat`, the read and the advance of
`outputBuffer` that precede it have been made. -/
def readFileLoop (G : Globals) (disk : List Byte) : Nat → ReadState → Outcome ReadState
  | 0, s => Outcome.outOfFuel s
  | fuel + 1, s =>
    match loopBody G disk s with
    | none => Outcome.undefinedBehaviour (fetchCluster G disk s)
    | some s' =>
      if s'.ok && decide (s'.currentCluster < 0x0FF7) then readFileLoop G disk fuel s'
      else Outcome.returned s'

/-- The state of `readFile` on entry to the loop. -/
def initialState (fileEntry : DirectoryEntry) : ReadState :=
  { ok := true
    currentCluster := fileEntry.FirstClusterLow.val
    outputBuffer := 0
    written := []
    reads := [] }

/-- `readFile(fileEntry, disk, outputBuffer)`: the returned `bool` together with the
final state. -/
def readFile (G : Globals) (fileEntry : DirectoryEntry) (disk : List Byte) (fuel : Nat) :
    Outcome (Bool × ReadState) :=
  match readFileLoop G disk fuel (initialState fileEntry) with
  | Outcome.returned s => Outcome.returned (s.ok && decide (s.currentCluster ≠ 0x0FF7), s)
  | Outcome.undefinedBehaviour s => Outcome.undefinedBehaviour s
  | Outcome.outOfFuel s => Outcome.outOfFuel s

/-- The value of `sizeof(BootSector)`: the packed fields take
3 + 8 + 2 + 1 + 2 + 1 + 2 + 2 + 1 + 2 + 2 + 2 + 4 + 4 + 1 + 1 + 1 + 4 + 11 + 8 bytes. -/
def sizeofBootSector : Nat := 62

/-- The byte `mem[off]` of a structure's memory; bytes the memory does not hold
read as 0. -/
def byteAt (mem : List Byte) (off : Nat) : Byte := mem.getD off 0

/-- A `uint16_t` field at offset `off` of a packed structure, little-endian. -/
def u16At (mem : List Byte) (off : Nat) : Fin 65536 :=
  ⟨(byteAt mem off).val + 256 * (byteAt mem (off + 1)).val, by
    have h0 := (byteAt mem off).isLt
    have h1 := (byteAt mem (off + 1)).isLt
    omega⟩

/-- A `uint32_t` field at offset `off` of a packed structure, little-endian. -/
def u32At (mem : List Byte) (off : Nat) : Fin 4294967296 :=
  ⟨(byteAt mem off).val + 256 * (byteAt mem (off + 1)).val
      + 65536 * (byteAt mem (off + 2)).val + 16777216 * (byteAt mem (off + 3)).val, by
    have h0 := (byteAt mem off).isLt
    have h1 := (byteAt mem (off + 1)).isLt
    have h2 := (byteAt mem (off + 2)).isLt
    have h3 := (byteAt mem (off + 3)).isLt
    omega⟩

/-- The `BootSector` that overlays the 62 bytes `mem`: each field is read at the
offset the packed layout gives it. -/
def overlayBootSector (mem : List Byte) : BootSector :=
  { BootJumpInstruction := (mem.drop 0).take 3
    OemIdentifier := (mem.drop 3).take 8
    BytesPerSector := u16At mem 11
    SectorsPerCluster := byteAt mem 13
    ReservedSectors := u16At mem 14
    FatCount := byteAt mem 16
    DirEntryCount := u16At mem 17
    TotalSectors := u16At mem 19
    MediaDescriptorType := byteAt mem 21
    SectorsPerFat := u16At mem 22
    SectorsPerTrack := u16At mem 24
    Heads := u16At mem 26
    HiddenSectors := u32At mem 28
    LargeSectorCount := u32At mem 32
    DriveNumber := byteAt mem 36
    _Reserved := byteAt mem 37
    Signature := byteAt mem 38
    VolumeId := u32At mem 39
    VolumeLabel := (mem.drop 43).take 11
    SystemId := (mem.drop 54).take 8 }

/-- `readBootSector(disk)`, called on the freshly opened image (stream position 0):
the returned `bool` and the value of `g_BootSector` afterwards. `g_BootSector` is a
zero-initialised global, so the bytes that a short read does not transfer are 0. -/
def readBootSector (disk : List Byte) : Bool × BootSector :=
  let r := fread disk 0 sizeofBootSector 1
  (decide (r.1 > 0),
    overlayBootSector (r.2 ++ List.replicate (sizeofBootSector - r.2.length) 0))

/-- The argument of the `malloc` of `main` for the output buffer,
`fileEntry->Size + g_BootSector.BytesPerSector`, an `unsigned int` sum. -/
def outputBufferSize (G : Globals) (fileEntry : DirectoryEntry) : Nat :=
  (fileEntry.Size.val + G.g_BootSector.BytesPerSector.val) % 4294967296

/-- `isprint` in the "C" locale: the characters from the space to the tilde. -/
def isprint (b : Byte) : Bool := decide (0x20 ≤ b.val ∧ b.val ≤ 0x7E)

/-- The lower-case hexadecimal digits that `%02x` prints. -/
def hexDigits : List Byte :=
  [0x30, 0x31, 0x32, 0x33, 0x34, 0x35, 0x36, 0x37, 0x38, 0x39,
   0x61, 0x62, 0x63, 0x64, 0x65, 0x66]

/-- What one iteration of the print loop of `main` writes to `stdout` for the byte
`b`: the character itself, a new line, or `<xx>` with the two hexadecimal digits. -/
def printByte (b : Byte) : List Byte :=
  if isprint b then [b]
  else if b.val = 0x0A then [0x0A]
  else [0x3C, hexDigits.getD (b.val / 16) 0, hexDigits.getD (b.val % 16) 0, 0x3E]

/-- The print loop of `main` from index `i` with `n` iterations left; `none` when
it reads `buffer[i]` past the bytes that `buffer` holds. -/
def printFrom (buffer : List Byte) : Nat → Nat → Option (List Byte)
  | 0, _ => some []
  | n + 1, i =>
    match buffer[i]? with
    | none => none
    | some b => (printFrom buffer n (i + 1)).map (fun out => printByte b ++ out)

/-- The output of `main` after a successful `readFile`: the print loop over
`i < fileEntry->Size`, then the final new line. -/
def printFile (buffer : List Byte) (fileEntry : DirectoryEntry) : Option (List Byte) :=
  (printFrom buffer fileEntry.Size.val 0).map (fun out => out ++ [0x0A])


/-! ## Specification-side notions -/

/-- The 16-bit little-endian value at byte offset `off` of `buf` (bytes outside
`buf` count as 0). -/
def le16 (buf : List Byte) (off : Nat) : Nat :=
  (buf.getD off 0).val + 256 * (buf.getD (off + 1) 0).val

/-- The number of bytes of a cluster, `SectorsPerCluster * BytesPerSector`. -/
def clusterBytes (G : Globals) : Nat :=
  G.g_BootSector.SectorsPerCluster.val * G.g_BootSector.BytesPerSector.val

/-- The contents of cluster `c` as the store delivers them to `readFile`. -/
def clusterData (G : Globals) (disk : List Byte) (c : Nat) : List Byte :=
  (readSectors G disk (clusterLba G c) G.g_BootSector.SectorsPerCluster.val).2

/-- The sector read of cluster `c` succeeds. -/
def Readable (G : Globals) (disk : List Byte) (c : Nat) : Prop :=
  (readSectors G disk (clusterLba G c) G.g_BootSector.SectorsPerCluster.val).1 = true

instance (G : Globals) (disk : List Byte) (c : Nat) : Decidable (Readable G disk c) := by
  unfold Readable; infer_instance

/-- The `readSectors` call that fetches cluster `c`, as a pair `(lba, count)`. -/
def clusterRead (G : Globals) (c : Nat) : Nat × Nat :=
  (clusterLba G c, G.g_BootSector.SectorsPerCluster.val)

/-- In the FAT, the entry of cluster `a` holds `b`, and `b` is a reference to a
further cluster (below the bad-cluster mark `0x0FF7`). -/
def Follows (fat : List Byte) (a b : Nat) : Prop :=
  nextCluster fat a = some b ∧ b < 0x0FF7

instance (fat : List Byte) : DecidableRel (Follows fat) := by
  intro a b; unfold Follows; infer_instance

/-- A cluster chain of the FAT: every member but the first is the reference held
by the entry of its predecessor. -/
def IsChain (fat : List Byte) (cs : List Nat) : Prop :=
  List.Chain' (Follows fat) cs

/-- The globals hold what `readRootDirectory` leaves in them: a non-zero sector
size and the `g_RootDirectoryEnd` it stores. -/
def Loaded (G : Globals) : Prop :=
  G.g_BootSector.BytesPerSector.val ≠ 0 ∧
    G.g_RootDirectoryEnd
      = toU32 (rootDirectoryLba G.g_BootSector + rootDirectorySectors G.g_BootSector)

instance (G : Globals) : Decidable (Loaded G) := by
  unfold Loaded; infer_instance

/-- The state reached from `s` after the clusters `cs` have been read successfully
and the value `next` has been decoded. -/
def advance (G : Globals) (disk : List Byte) (s : ReadState) (cs : List Nat) (next : Nat) :
    ReadState :=
  { ok := true
    currentCluster := next
    outputBuffer := s.outputBuffer + cs.length * clusterBytes G
    written := s.written ++ (cs.map (clusterData G disk)).flatten
    reads := s.reads ++ cs.map (clusterRead G) }

/-- Conversion of a natural number to `uint8_t`. -/
def toByte (x : Nat) : Byte := ⟨x % 256, Nat.mod_lt _ (by decide)⟩

/-- The three bytes that hold the pair of 12-bit FAT entries `a` (even index) and `b`
(odd index), as the comment on the File Allocation Table in the source describes:
the low byte of `a`; the high nibble of `a` with the low nibble of `b` above it; the
high byte of `b`. -/
def packPair (a b : Nat) : List Byte :=
  [toByte (a &&& 0xFF), toByte ((a >>> 8) ||| ((b &&& 0xF) <<< 4)), toByte (b >>> 4)]

/-- The packed FAT of a table of 12-bit entries, two entries per three bytes; a last
entry without a partner is packed with 0. -/
def packFat : List Nat → List Byte
  | [] => []
  | [a] => packPair a 0
  | a :: b :: rest => packPair a b ++ packFat rest

/-- The table `tbl` after the chain `cs` has been entered in it: the entry of each
cluster of `cs` is set to its successor in `cs`, the entry of the last one to `e`. -/
def linkChain (tbl : List Nat) : List Nat → Nat → List Nat
  | [], _ => tbl
  | [c], e => tbl.set c e
  | c :: d :: cs, e => linkChain (tbl.set c d) (d :: cs) e

/-! ## Concrete images -/

/-- The BIOS parameter block of a 1.44 MB floppy disk. -/
def floppyBoot : BootSector :=
  { BootJumpInstruction := [0xEB, 0x3C, 0x90]
    OemIdentifier := [0x4D, 0x53, 0x57, 0x49, 0x4E, 0x34, 0x2E, 0x31]
    BytesPerSector := 512
    SectorsPerCluster := 1
    ReservedSectors := 1
    FatCount := 2
    DirEntryCount := 224
    TotalSectors := 2880
    MediaDescriptorType := 0xF0
    SectorsPerFat := 9
    SectorsPerTrack := 18
    Heads := 2
    HiddenSectors := 0
    LargeSectorCount := 0
    DriveNumber := 0
    _Reserved := 0
    Signature := 0x29
    VolumeId := 0x12345678
    VolumeLabel := [0x4C, 0x41, 0x52, 0x49, 0x20, 0x4F, 0x53, 0x20, 0x20, 0x20, 0x20]
    SystemId := [0x46, 0x41, 0x54, 0x31, 0x32, 0x20, 0x20, 0x20] }

/-- A directory entry with the given name, first cluster and size. -/
def mkEntry (name : List Byte) (firstClusterLow : Fin 65536) (size : Fin 4294967296) :
    DirectoryEntry :=
  { Name := name
    Attributes := 0
    _Reserved := 0
    CreatedTimeTenths := 0
    CreatedTime := 0
    CreatedDate := 0
    AccessedDate := 0
    FirstClusterHigh := 0
    ModifiedTime := 0
    ModifiedDate := 0
    FirstClusterLow := firstClusterLow
    Size := size }

/-- The name `TEST    TXT`. -/
def nameUpper : List Byte :=
  [0x54, 0x45, 0x53, 0x54, 0x20, 0x20, 0x20, 0x20, 0x54, 0x58, 0x54]

/-- The name `test    txt`. -/
def nameLower : List Byte :=
  [0x74, 0x65, 0x73, 0x74, 0x20, 0x20, 0x20, 0x20, 0x74, 0x78, 0x74]

/-- The FAT of the source comment, `F0 FF FF 03 40 00 05 60 00 07 80 00`. -/
def commentFat : List Byte :=
  [0xF0, 0xFF, 0xFF, 0x03, 0x40, 0x00, 0x05, 0x60, 0x00, 0x07, 0x80, 0x00]

/-- A FAT whose only file is the chain 2, 3: `F0 FF FF 03 F0 FF`, zero-filled to
one sector of 64 bytes. -/
def smallFat : List Byte :=
  [0xF0, 0xFF, 0xFF, 0x03, 0xF0, 0xFF] ++ List.replicate 58 0

/-- A boot sector with 64-byte sectors, one reserved sector, one FAT of one sector
and a root directory of two entries (one sector): the data region starts at LBA 3. -/
def smallBoot : BootSector :=
  { floppyBoot with
    BytesPerSector := 64
    SectorsPerCluster := 1
    ReservedSectors := 1
    FatCount := 1
    DirEntryCount := 2
    TotalSectors := 6
    SectorsPerFat := 1 }

/-- The root directory of the small image: `TEST    TXT` at cluster 2 with 100
bytes, and an unused slot. -/
def smallDir : List Byte :=
  nameUpper ++ List.replicate 15 0 ++ [2, 0, 100, 0, 0, 0] ++ List.replicate 32 0

/-- The small image: boot sector area, FAT, root directory and the data clusters
2, 3 and 4, filled with the bytes 0xAA, 0xBB and 0xCC. -/
def smallDisk : List Byte :=
  List.replicate 64 0 ++ smallFat ++ smallDir
    ++ List.replicate 64 0xAA ++ List.replicate 64 0xBB ++ List.replicate 64 0xCC

/-- The globals after the small image has been loaded. -/
def smallGlobals : Globals :=
  { g_BootSector := smallBoot
    g_Fat := smallFat
    g_RootDirectory := smallDir
    g_RootDirectoryEnd := 3 }

/-- The small image cut short in the middle of cluster 3. -/
def shortDisk : List Byte := smallDisk.take 266

/-- A floppy-like geometry with 12 sectors per FAT, so that the FAT buffer holds
the entry of every cluster number up to `0x0FFF`; the data region starts at LBA 39. -/
def bigBoot : BootSector :=
  { floppyBoot with SectorsPerFat := 12, TotalSectors := 4125 }

/-- A FAT of 12 sectors whose entry `0x0FF7` (bytes 6130 and 6131) holds `0x0FFF`;
all the other entries above the two reserved ones are 0. -/
def bigFat : List Byte :=
  [0xF0, 0xFF, 0xFF] ++ List.replicate 6127 0 ++ [0xF0, 0xFF] ++ List.replicate 12 0

/-- The reserved sector, the two FATs and the root directory of the big image:
39 sectors. -/
def bigSystemArea : List Byte :=
  List.replicate 512 0 ++ bigFat ++ bigFat ++ List.replicate 7168 0

/-- The big image: the system area and 4086 data clusters filled with `0x55`. -/
def bigDisk : List Byte := bigSystemArea ++ List.replicate 2092032 0x55

/-- The globals after the big image has been loaded. -/
def bigGlobals : Globals :=
  { g_BootSector := bigBoot
    g_Fat := bigFat
    g_RootDirectory := List.replicate 7168 0
    g_RootDirectoryEnd := 39 }

/-- The small image with a FAT in which cluster 2 refers to cluster 1, whose entry is
the end mark `0x0FFF` of the reserved entries: `F0 FF FF 01 00 00`, zero-filled. -/
def lowGlobals : Globals :=
  { smallGlobals with g_Fat := [0xF0, 0xFF, 0xFF, 0x01, 0x00, 0x00] ++ List.replicate 58 0 }

/-- The first 62 bytes of a 1.44 MB floppy image: the boot sector fields of
`floppyBoot` in the packed layout. -/
def floppyBootBytes : List Byte :=
  [0xEB, 0x3C, 0x90,
   0x4D, 0x53, 0x57, 0x49, 0x4E, 0x34, 0x2E, 0x31,
   0x00, 0x02, 0x01, 0x01, 0x00, 0x02, 0xE0, 0x00, 0x40, 0x0B, 0xF0, 0x09, 0x00,
   0x12, 0x00, 0x02, 0x00, 0x00, 0x00, 0x00, 0x00, 0x00, 0x00, 0x00, 0x00,
   0x00, 0x00, 0x29, 0x78, 0x56, 0x34, 0x12,
   0x4C, 0x41, 0x52, 0x49, 0x20, 0x4F, 0x53, 0x20, 0x20, 0x20, 0x20,
   0x46, 0x41, 0x54, 0x31, 0x32, 0x20, 0x20, 0x20]

/-- The globals of the small image with a sector size of 0. -/
def zeroSectorGlobals : Globals :=
  { smallGlobals with g_BootSector := { smallBoot with BytesPerSector := 0 } }

/-- The geometry of a 360 KB floppy disk: two sectors per cluster, two FATs of two
sectors, 112 directory entries; the data region starts at LBA 12. -/
def pairBoot : BootSector :=
  { floppyBoot with
    SectorsPerCluster := 2
    DirEntryCount := 112
    TotalSectors := 720
    MediaDescriptorType := 0xFD
    SectorsPerFat := 2
    SectorsPerTrack := 9 }

/-- A FAT of two sectors in which the entry of cluster 2 is the end mark `0x0FFF`:
`FD FF FF FF 0F`, zero-filled. -/
def pairFat : List Byte :=
  [0xFD, 0xFF, 0xFF, 0xFF, 0x0F] ++ List.replicate 1019 0

/-- The reserved sector, the two FATs and the root directory of the 360 KB image:
12 sectors. -/
def pairSystemArea : List Byte :=
  List.replicate 512 0 ++ pairFat ++ pairFat ++ List.replicate 3584 0

/-- The 360 KB image: the system area and 708 data sectors filled with `0x41`. -/
def pairDisk : List Byte := pairSystemArea ++ List.replicate 362496 0x41

/-- The globals after the 360 KB image has been loaded. -/
def pairGlobals : Globals :=
  { g_BootSector := pairBoot
    g_Fat := pairFat
    g_RootDirectory := List.replicate 3584 0
    g_RootDirectoryEnd := 12 }

/-! ## Decoding of FAT entries -/

theorem le16_lt (buf : List Byte) (off : Nat) : le16 buf off < 65536 := by
  unfold le16
  have h1 := (buf.getD off 0).isLt
  have h2 := (buf.getD (off + 1) 0).isLt
  omega

theorem loadU16_eq_le16 (buf : List Byte) (off : Nat) (h : off + 1 < buf.length) :
    loadU16 buf off = some (le16 buf off) := by
  have h0 : off < buf.length := by omega
  simp [loadU16, le16, List.getElem?_eq_getElem h, List.getElem?_eq_getElem h0,
    List.getD_eq_getElem?_getD]

theorem loadU16_eq_none (buf : List Byte) (off : Nat) (h : buf.length ≤ off + 1) :
    loadU16 buf off = none := by
  have h1 : buf[off + 1]? = none := List.getElem?_eq_none h
  unfold loadU16
  rw [h1]
  cases buf[off]? <;> rfl

theorem nextCluster_eq (fat : List Byte) (c : Nat) (h : c * 3 / 2 + 1 < fat.length) :
    nextCluster fat c
      = some (if c % 2 = 0 then le16 fat (c * 3 / 2) &&& 0x0FFF else le16 fat (c * 3 / 2) >>> 4) := by
  have hlt := le16_lt fat (c * 3 / 2)
  unfold nextCluster
  simp only [loadU16_eq_le16 fat _ h, Option.map_some']
  split
  · have : le16 fat (c * 3 / 2) &&& 0x0FFF ≤ 0x0FFF := Nat.and_le_right
    rw [Nat.mod_eq_of_lt (by omega)]
  · have : le16 fat (c * 3 / 2) >>> 4 ≤ le16 fat (c * 3 / 2) := by
      rw [Nat.shiftRight_eq_div_pow]; exact Nat.div_le_self _ _
    rw [Nat.mod_eq_of_lt (by omega)]

/-! ## The root directory region -/

theorem rootDirectoryLba_eq (b : BootSector) :
    rootDirectoryLba b = b.ReservedSectors.val + b.SectorsPerFat.val * b.FatCount.val := by
  have h1 := b.ReservedSectors.isLt
  have h2 : b.SectorsPerFat.val * b.FatCount.val ≤ 65535 * 255 :=
    Nat.mul_le_mul (by omega) (by omega)
  unfold rootDirectoryLba
  exact Nat.mod_eq_of_lt (by omega)

theorem rootDirectoryLba_le (b : BootSector) : rootDirectoryLba b ≤ 16776960 := by
  have h1 := b.ReservedSectors.isLt
  have h2 : b.SectorsPerFat.val * b.FatCount.val ≤ 65535 * 255 :=
    Nat.mul_le_mul (by omega) (by omega)
  rw [rootDirectoryLba_eq]; omega

theorem rootDirectorySize_eq (b : BootSector) :
    rootDirectorySize b = 32 * b.DirEntryCount.val := by
  unfold rootDirectorySize sizeofDirectoryEntry
  omega

theorem rootDirectorySectors_le (b : BootSector) : rootDirectorySectors b ≤ 2097121 := by
  have h : rootDirectorySize b / b.BytesPerSector.val ≤ 2097120 :=
    Nat.le_trans (Nat.div_le_self _ _) (by rw [rootDirectorySize_eq]; omega)
  unfold rootDirectorySectors
  simp only
  split
  · exact Nat.le_trans (Nat.mod_le _ _) (by omega)
  · omega

theorem toU32_val (x : Nat) (h : x < 4294967296) : (toU32 x).val = x := by
  unfold toU32
  exact Nat.mod_eq_of_lt h

theorem Loaded.end_eq {G : Globals} (h : Loaded G) :
    G.g_RootDirectoryEnd.val
      = rootDirectoryLba G.g_BootSector + rootDirectorySectors G.g_BootSector := by
  have h1 := rootDirectoryLba_le G.g_BootSector
  have h2 := rootDirectorySectors_le G.g_BootSector
  rw [h.2, toU32_val _ (by omega)]

theorem Loaded.end_le {G : Globals} (h : Loaded G) : G.g_RootDirectoryEnd.val ≤ 18874081 := by
  have h1 := rootDirectoryLba_le G.g_BootSector
  have h2 := rootDirectorySectors_le G.g_BootSector
  rw [h.end_eq]; omega

theorem readRootDirectory_loaded (G G' : Globals) (disk : List Byte) (r : Bool)
    (h : readRootDirectory G disk = some (r, G')) : Loaded G' := by
  unfold readRootDirectory at h
  split at h
  · cases h
  · rename_i hb
    simp only [Option.some.injEq, Prod.mk.injEq] at h
    obtain ⟨-, rfl⟩ := h
    exact ⟨hb, rfl⟩

/-- For a reference `c ≥ 2` the `lba` of `readFile` is the exact sum: nothing
wraps once `g_RootDirectoryEnd` is the value stored by `readRootDirectory`. -/
theorem clusterLba_exact (G : Globals) (h : Loaded G) (c : Nat) (h2 : 2 ≤ c) (hc : c < 65536) :
    clusterLba G c
      = G.g_RootDirectoryEnd.val + (c - 2) * G.g_BootSector.SectorsPerCluster.val := by
  have he := h.end_le
  have hs := G.g_BootSector.SectorsPerCluster.isLt
  have hm : (c - 2) * G.g_BootSector.SectorsPerCluster.val ≤ 65533 * 255 :=
    Nat.mul_le_mul (by omega) (by omega)
  have hcast : ((G.g_RootDirectoryEnd.val : Int)
      + ((c : Int) - 2) * (G.g_BootSector.SectorsPerCluster.val : Int))
      = ((G.g_RootDirectoryEnd.val + (c - 2) * G.g_BootSector.SectorsPerCluster.val : Nat) : Int) := by
    push_cast [Nat.cast_sub h2]
    rfl
  unfold clusterLba
  rw [hcast]
  have hlt : G.g_RootDirectoryEnd.val + (c - 2) * G.g_BootSector.SectorsPerCluster.val
      < 4294967296 := by omega
  generalize G.g_RootDirectoryEnd.val + (c - 2) * G.g_BootSector.SectorsPerCluster.val = n at hlt
  omega

/-! ## Lookup in the root directory -/

theorem findFileFrom_eq_some (dir name : List Byte) (n i k : Nat) :
    findFileFrom dir name n i = some k ↔
      i ≤ k ∧ k < i + n ∧ name.take 11 = entryName dir k ∧
        ∀ j, i ≤ j → j < k → name.take 11 ≠ entryName dir j := by
  induction n generalizing i with
  | zero =>
    simp only [findFileFrom, Nat.add_zero]
    constructor
    · intro h; cases h
    · rintro ⟨h1, h2, -⟩; omega
  | succ n ih =>
    unfold findFileFrom
    by_cases hm : name.take 11 = entryName dir i
    · rw [if_pos hm]
      constructor
      · intro h
        cases h
        exact ⟨Nat.le_refl _, by omega, hm, fun j h1 h2 => by omega⟩
      · rintro ⟨h1, -, -, h4⟩
        have : i = k := by
          by_contra hne
          exact h4 i (Nat.le_refl _) (by omega) hm
        rw [this]
    · rw [if_neg hm, ih]
      constructor
      · rintro ⟨h1, h2, h3, h4⟩
        refine ⟨by omega, by omega, h3, ?_⟩
        intro j hj1 hj2
        by_cases hji : j = i
        · rw [hji]; exact hm
        · exact h4 j (by omega) hj2
      · rintro ⟨h1, h2, h3, h4⟩
        have hik : i ≠ k := by
          intro he; rw [he] at hm; exact hm h3
        exact ⟨by omega, by omega, h3, fun j hj1 hj2 => h4 j (by omega) hj2⟩

theorem findFileFrom_eq_none (dir name : List Byte) (n i : Nat) :
    findFileFrom dir name n i = none ↔
      ∀ j, i ≤ j → j < i + n → name.take 11 ≠ entryName dir j := by
  induction n generalizing i with
  | zero =>
    simp only [findFileFrom, Nat.add_zero, true_iff]
    intro j h1 h2; omega
  | succ n ih =>
    unfold findFileFrom
    by_cases hm : name.take 11 = entryName dir i
    · rw [if_pos hm]
      constructor
      · intro h; cases h
      · intro h; exact absurd hm (h i (Nat.le_refl _) (by omega))
    · rw [if_neg hm, ih]
      constructor
      · intro h j hj1 hj2
        by_cases hji : j = i
        · rw [hji]; exact hm
        · exact h j (by omega) (by omega)
      · intro h j hj1 hj2
        exact h j (by omega) (by omega)

/-! ## The sector store -/

theorem readSectors_length_of_ok (G : Globals) (disk : List Byte) (lba count : Nat)
    (h : (readSectors G disk lba count).1 = true) :
    (readSectors G disk lba count).2.length = count * G.g_BootSector.BytesPerSector.val := by
  unfold readSectors fread at h ⊢
  simp only [decide_eq_true_eq] at h
  simp only
  generalize G.g_BootSector.BytesPerSector.val = b at h ⊢
  generalize List.drop (lba * b % 4294967296) disk = l at h ⊢
  have hle : (List.take (b * count) l).length ≤ b * count := by
    rw [List.length_take]; exact Nat.min_le_left _ _
  split at h
  · rename_i hb
    subst hb
    subst h
    simp
  · have h2 := Nat.div_mul_le_self (List.take (b * count) l).length b
    rw [h] at h2
    have hbc := Nat.mul_comm b count
    omega

theorem readSectors_length_le (G : Globals) (disk : List Byte) (lba count : Nat) :
    (readSectors G disk lba count).2.length ≤ count * G.g_BootSector.BytesPerSector.val := by
  unfold readSectors fread
  simp only
  rw [List.length_take, Nat.mul_comm]
  exact Nat.min_le_left _ _

theorem clusterData_length (G : Globals) (disk : List Byte) (c : Nat) (h : Readable G disk c) :
    (clusterData G disk c).length = clusterBytes G :=
  readSectors_length_of_ok G disk _ _ h

theorem flatten_clusterData_length (G : Globals) (disk : List Byte) (cs : List Nat)
    (h : ∀ c ∈ cs, Readable G disk c) :
    ((cs.map (clusterData G disk)).flatten).length = cs.length * clusterBytes G := by
  induction cs with
  | nil => simp
  | cons c cs ih =>
    have h1 := clusterData_length G disk c (h c (List.mem_cons_self _ _))
    have h2 := ih (fun x hx => h x (List.mem_cons_of_mem _ hx))
    simp only [List.map_cons, List.flatten_cons, List.length_append, List.length_cons, h1, h2]
    rw [Nat.add_mul]; omega

/-! ## The loop of `readFile` -/

theorem advance_nil (G : Globals) (disk : List Byte) (s : ReadState) (h : s.ok = true) :
    advance G disk s [] s.currentCluster = s := by
  cases s
  simp only at h
  simp [advance, h]

theorem advance_advance (G : Globals) (disk : List Byte) (s : ReadState) (xs ys : List Nat)
    (v d : Nat) :
    advance G disk (advance G disk s xs v) ys d = advance G disk s (xs ++ ys) d := by
  simp [advance, Nat.add_mul, Nat.add_assoc]

theorem loopBody_readable (G : Globals) (disk : List Byte) (s : ReadState) (v : Nat)
    (hok : s.ok = true) (hr : Readable G disk s.currentCluster)
    (hn : nextCluster G.g_Fat s.currentCluster = some v) :
    loopBody G disk s = some (advance G disk s [s.currentCluster] v) := by
  unfold Readable at hr
  unfold loopBody
  simp [hn, hok, hr, advance, clusterBytes, clusterData, clusterRead]

theorem loopBody_unreadable (G : Globals) (disk : List Byte) (s : ReadState) (v : Nat)
    (hok : s.ok = true) (hr : ¬ Readable G disk s.currentCluster)
    (hn : nextCluster G.g_Fat s.currentCluster = some v) :
    loopBody G disk s
      = some { ok := false
               currentCluster := v
               outputBuffer := s.outputBuffer + clusterBytes G
               written := s.written ++ clusterData G disk s.currentCluster
               reads := s.reads ++ [clusterRead G s.currentCluster] } := by
  unfold Readable at hr
  unfold loopBody
  simp [hn, hok, hr, clusterBytes, clusterData, clusterRead]

/-- Walking over the readable clusters `pre` of a chain `pre ++ [d]` takes one
unit of fuel for each and leads to the state that is about to read `d`. -/
theorem readFileLoop_walk (G : Globals) (disk : List Byte) (pre : List Nat) (d : Nat) :
    ∀ (s : ReadState) (fuel : Nat), s.ok = true → IsChain G.g_Fat (pre ++ [d]) →
      (pre ++ [d]).head? = some s.currentCluster → (∀ c ∈ pre, Readable G disk c) →
      readFileLoop G disk (fuel + pre.length) s
        = readFileLoop G disk fuel (advance G disk s pre d) := by
  induction pre with
  | nil =>
    intro s fuel hok _ hhead _
    simp only [List.nil_append, List.head?_cons, Option.some.injEq] at hhead
    rw [hhead, advance_nil G disk s hok]
    rfl
  | cons c pre ih =>
    intro s fuel hok hch hhead hr
    simp only [List.cons_append, List.head?_cons, Option.some.injEq] at hhead
    subst hhead
    obtain ⟨x, hx⟩ : ∃ x, (pre ++ [d]).head? = some x := by
      cases pre with
      | nil => exact ⟨d, rfl⟩
      | cons y ys => exact ⟨y, rfl⟩
    have hch' := (List.chain'_cons'.1 hch)
    have hfx : Follows G.g_Fat s.currentCluster x :=
      hch'.1 x (by show x ∈ (pre ++ [d]).head?; rw [hx]; rfl)
    have hbody := loopBody_readable G disk s x hok (hr _ (List.mem_cons_self _ _)) hfx.1
    have hstep : readFileLoop G disk (fuel + pre.length + 1) s
        = readFileLoop G disk (fuel + pre.length) (advance G disk s [s.currentCluster] x) := by
      show (match loopBody G disk s with
        | none => Outcome.undefinedBehaviour (fetchCluster G disk s)
        | some s' =>
          if s'.ok && decide (s'.currentCluster < 0x0FF7)
          then readFileLoop G disk (fuel + pre.length) s' else Outcome.returned s') = _
      rw [hbody]
      have hlt : x < 0x0FF7 := hfx.2
      simp [advance, hlt]
    have hih := ih (advance G disk s [s.currentCluster] x) fuel rfl hch'.2 hx
      (fun c hc => hr c (List.mem_cons_of_mem _ hc))
    rw [List.length_cons, ← Nat.add_assoc, hstep, hih, advance_advance]
    rfl

/-- The last iteration of a successful walk: the cluster is read and the decoded
value is `0x0FF7` or above, so the loop ends. -/
theorem readFileLoop_last (G : Globals) (disk : List Byte) (s : ReadState) (e fuel : Nat)
    (hok : s.ok = true) (hr : Readable G disk s.currentCluster)
    (hn : nextCluster G.g_Fat s.currentCluster = some e) (he : 0x0FF7 ≤ e) :
    readFileLoop G disk (fuel + 1) s
      = Outcome.returned (advance G disk s [s.currentCluster] e) := by
  show (match loopBody G disk s with
    | none => Outcome.undefinedBehaviour (fetchCluster G disk s)
    | some s' =>
      if s'.ok && decide (s'.currentCluster < 0x0FF7)
      then readFileLoop G disk fuel s' else Outcome.returned s') = _
  rw [loopBody_readable G disk s e hok hr hn]
  have hlt : ¬ e < 0x0FF7 := by omega
  simp [advance, hlt]

/-- An iteration whose sector read fails ends the loop, whatever is decoded. -/
theorem readFileLoop_failed (G : Globals) (disk : List Byte) (s : ReadState) (v fuel : Nat)
    (hok : s.ok = true) (hr : ¬ Readable G disk s.currentCluster)
    (hn : nextCluster G.g_Fat s.currentCluster = some v) :
    readFileLoop G disk (fuel + 1) s
      = Outcome.returned
          { ok := false
            currentCluster := v
            outputBuffer := s.outputBuffer + clusterBytes G
            written := s.written ++ clusterData G disk s.currentCluster
            reads := s.reads ++ [clusterRead G s.currentCluster] } := by
  show (match loopBody G disk s with
    | none => Outcome.undefinedBehaviour (fetchCluster G disk s)
    | some s' =>
      if s'.ok && decide (s'.currentCluster < 0x0FF7)
      then readFileLoop G disk fuel s' else Outcome.returned s') = _
  rw [loopBody_unreadable G disk s v hok hr hn]
  simp

/-- A chain whose clusters are all readable and whose last entry holds `0x0FF7` or
above is walked to its end. -/
theorem readFileLoop_chain (G : Globals) (disk : List Byte) (pre : List Nat) (last e : Nat)
    (s : ReadState) (fuel : Nat) (hok : s.ok = true) (hch : IsChain G.g_Fat (pre ++ [last]))
    (hhead : (pre ++ [last]).head? = some s.currentCluster)
    (hread : ∀ c ∈ pre ++ [last], Readable G disk c)
    (hend : nextCluster G.g_Fat last = some e) (he : 0x0FF7 ≤ e)
    (hfuel : pre.length + 1 ≤ fuel) :
    readFileLoop G disk fuel s = Outcome.returned (advance G disk s (pre ++ [last]) e) := by
  obtain ⟨k, rfl⟩ : ∃ k, fuel = (k + 1) + pre.length := ⟨fuel - (pre.length + 1), by omega⟩
  rw [readFileLoop_walk G disk pre last s (k + 1) hok hch hhead
    (fun c hc => hread c (List.mem_append_left _ hc))]
  have hlast : Readable G disk (advance G disk s pre last).currentCluster :=
    hread last (List.mem_append_right _ (List.mem_singleton_self _))
  rw [readFileLoop_last G disk (advance G disk s pre last) e k rfl hlast hend he,
    advance_advance]
  rfl

/-- A chain whose clusters `pre` are readable and whose next cluster `bad` is not
is walked up to the failing read. -/
theorem readFileLoop_chain_failed (G : Globals) (disk : List Byte) (pre : List Nat)
    (bad v : Nat) (s : ReadState) (fuel : Nat) (hok : s.ok = true)
    (hch : IsChain G.g_Fat (pre ++ [bad]))
    (hhead : (pre ++ [bad]).head? = some s.currentCluster)
    (hread : ∀ c ∈ pre, Readable G disk c) (hbad : ¬ Readable G disk bad)
    (hnext : nextCluster G.g_Fat bad = some v) (hfuel : pre.length + 1 ≤ fuel) :
    readFileLoop G disk fuel s
      = Outcome.returned
          { ok := false
            currentCluster := v
            outputBuffer := s.outputBuffer + (pre.length + 1) * clusterBytes G
            written := s.written ++ (pre.map (clusterData G disk)).flatten
              ++ clusterData G disk bad
            reads := s.reads ++ (pre ++ [bad]).map (clusterRead G) } := by
  obtain ⟨k, rfl⟩ : ∃ k, fuel = (k + 1) + pre.length := ⟨fuel - (pre.length + 1), by omega⟩
  rw [readFileLoop_walk G disk pre bad s (k + 1) hok hch hhead hread]
  rw [readFileLoop_failed G disk (advance G disk s pre bad) v k rfl hbad hnext]
  simp [advance, Nat.add_mul, Nat.add_assoc]

theorem readFile_eq (G : Globals) (fileEntry : DirectoryEntry) (disk : List Byte) (fuel : Nat)
    (st : ReadState)
    (h : readFileLoop G disk fuel (initialState fileEntry) = Outcome.returned st) :
    readFile G fileEntry disk fuel
      = Outcome.returned (st.ok && decide (st.currentCluster ≠ 0x0FF7), st) := by
  unfold readFile
  rw [h]

/-! ## Evaluation on the concrete images -/

theorem readSectors_append_replicate (G : Globals) (sys : List Byte) (n : Nat) (b : Byte)
    (lba count : Nat) (hb : 0 < G.g_BootSector.BytesPerSector.val)
    (hpos : sys.length ≤ lba * G.g_BootSector.BytesPerSector.val % 4294967296)
    (hfit : lba * G.g_BootSector.BytesPerSector.val % 4294967296
      + G.g_BootSector.BytesPerSector.val * count ≤ sys.length + n) :
    readSectors G (sys ++ List.replicate n b) lba count
      = (true, List.replicate (G.g_BootSector.BytesPerSector.val * count) b) := by
  unfold readSectors fread
  simp only
  generalize G.g_BootSector.BytesPerSector.val = bps at hb hpos hfit ⊢
  generalize lba * bps % 4294967296 = pos at hpos hfit ⊢
  obtain ⟨i, rfl⟩ : ∃ i, pos = sys.length + i := ⟨pos - sys.length, by omega⟩
  rw [List.drop_append, List.drop_replicate, List.take_replicate,
    Nat.min_eq_left (by omega)]
  simp only [List.length_replicate, if_neg (Nat.pos_iff_ne_zero.1 hb),
    Nat.mul_div_cancel_left _ hb, decide_True]

theorem bigSystemArea_length : bigSystemArea.length = 19968 := by
  simp only [bigSystemArea, bigFat, List.length_append, List.length_replicate,
    List.length_cons, List.length_nil]

theorem bigFat_entry : nextCluster bigFat 0x0FF7 = some 0x0FFF := by
  have hlen : ([0xF0, 0xFF, 0xFF] ++ List.replicate 6127 (0 : Byte)).length = 6130 := by
    simp only [List.length_append, List.length_replicate, List.length_cons, List.length_nil]
  have h0 : bigFat[6130]? = some 0xF0 := by
    unfold bigFat
    rw [List.append_assoc, List.getElem?_append_right (by rw [hlen]), hlen]
    rfl
  have h1 : bigFat[6131]? = some 0xFF := by
    unfold bigFat
    rw [List.append_assoc, List.getElem?_append_right (by rw [hlen]; decide), hlen]
    rfl
  have hl : loadU16 bigFat 6130 = some 0xFFF0 := by
    unfold loadU16
    rw [h0, h1]
    rfl
  unfold nextCluster
  simp only [show (0x0FF7 * 3 / 2 : Nat) = 6130 from rfl, hl]
  decide

theorem bigDisk_cluster :
    readSectors bigGlobals bigDisk (clusterLba bigGlobals 0x0FF7) 1
      = (true, List.replicate 512 0x55) := by
  have hlba : clusterLba bigGlobals 0x0FF7 = 4124 := by decide
  rw [hlba]
  unfold bigDisk
  rw [readSectors_append_replicate bigGlobals bigSystemArea 2092032 0x55 4124 1 (by decide)
    (by rw [bigSystemArea_length]; decide) (by rw [bigSystemArea_length]; decide)]
  rfl

/-! ## Packing of FAT entries -/

theorem or_shift_nibble : ∀ x y : Fin 16, x.val ||| (y.val <<< 4) = x.val + 16 * y.val := by
  decide

theorem packPair_even (a b : Nat) (ha : a < 4096) :
    (((toByte (a &&& 0xFF)).val + 256 * (toByte ((a >>> 8) ||| ((b &&& 0xF) <<< 4))).val)
      &&& 0x0FFF) = a := by
  have h1 : a &&& 0xFF = a % 256 := Nat.and_pow_two_sub_one_eq_mod a 8
  have h2 : b &&& 0xF = b % 16 := Nat.and_pow_two_sub_one_eq_mod b 4
  have h3 : a >>> 8 = a / 256 := Nat.shiftRight_eq_div_pow a 8
  have h4 := or_shift_nibble ⟨a / 256, by omega⟩ ⟨b % 16, by omega⟩
  simp only at h4
  have h5 : ∀ x : Nat, x &&& 0x0FFF = x % 4096 := fun x => Nat.and_pow_two_sub_one_eq_mod x 12
  simp only [toByte, h1, h2, h3, h4, h5]
  omega

theorem packPair_odd (a b : Nat) (ha : a < 4096) (hb : b < 4096) :
    (((toByte ((a >>> 8) ||| ((b &&& 0xF) <<< 4))).val + 256 * (toByte (b >>> 4)).val)
      >>> 4) = b := by
  have h2 : b &&& 0xF = b % 16 := Nat.and_pow_two_sub_one_eq_mod b 4
  have h3 : a >>> 8 = a / 256 := Nat.shiftRight_eq_div_pow a 8
  have h4 := or_shift_nibble ⟨a / 256, by omega⟩ ⟨b % 16, by omega⟩
  simp only at h4
  have h5 : ∀ x : Nat, x >>> 4 = x / 16 := fun x => Nat.shiftRight_eq_div_pow x 4
  simp only [toByte, h2, h3, h4, h5]
  omega

/-- The three bytes of the `k`-th pair of a packed table. -/
theorem packFat_getElem? (tbl : List Nat) (k j : Nat) (hk : 2 * k < tbl.length) (hj : j < 3) :
    (packFat tbl)[3 * k + j]? = (packPair (tbl.getD (2 * k) 0) (tbl.getD (2 * k + 1) 0))[j]? := by
  induction k generalizing tbl with
  | zero =>
    match tbl, hk with
    | [a], _ =>
      simp only [packFat, Nat.mul_zero, Nat.zero_add, List.getD_cons_zero, List.getD_cons_succ,
        List.getD_nil]
    | a :: b :: rest, _ =>
      simp only [packFat, Nat.mul_zero, Nat.zero_add, List.getD_cons_zero, List.getD_cons_succ]
      exact List.getElem?_append_left (by simp [packPair]; omega)
  | succ k ih =>
    match tbl, hk with
    | [a], h => simp at h
    | a :: b :: rest, h =>
      have hk' : 2 * k < rest.length := by simp only [List.length_cons] at h; omega
      have e1 : 3 * (k + 1) + j = (packPair a b).length + (3 * k + j) := by
        simp [packPair]; omega
      have e2 : 2 * (k + 1) = 2 * k + 1 + 1 := by omega
      rw [packFat, e1, List.getElem?_append_right (Nat.le_add_right _ _),
        Nat.add_sub_cancel_left, ih rest hk', e2]
      simp only [List.getD_cons_succ]

theorem loadU16_append (p q : List Byte) (off : Nat) (h : off + 1 < p.length) :
    loadU16 (p ++ q) off = loadU16 p off := by
  unfold loadU16
  rw [List.getElem?_append_left (by omega), List.getElem?_append_left h]

theorem nextCluster_append (p q : List Byte) (c : Nat) (h : c * 3 / 2 + 1 < p.length) :
    nextCluster (p ++ q) c = nextCluster p c := by
  unfold nextCluster
  simp only [loadU16_append p q _ h]

theorem packFat_length (tbl : List Nat) : (packFat tbl).length = 3 * ((tbl.length + 1) / 2) := by
  induction tbl using packFat.induct with
  | case1 => rfl
  | case2 a => simp [packFat, packPair]
  | case3 a b rest ih =>
    simp only [packFat, List.length_append, ih, List.length_cons, packPair, List.length_nil]
    omega

/-- Unpacking after packing: the decoding step of `readFile` at index `i` of a packed
table of 12-bit entries returns the `i`-th entry. -/
theorem nextCluster_packFat (tbl : List Nat) (htbl : ∀ x ∈ tbl, x < 4096) (i : Nat)
    (hi : i < tbl.length) : nextCluster (packFat tbl) i = some (tbl.getD i 0) := by
  have hget : ∀ n, tbl.getD n 0 < 4096 := by
    intro n
    rw [List.getD_eq_getElem?_getD]
    cases hn : tbl[n]? with
    | none => simp
    | some x => exact htbl x (List.getElem?_mem hn)
  rcases Nat.even_or_odd' i with ⟨k, hk | hk⟩
  · subst hk
    have h0 := packFat_getElem? tbl k 0 hi (by omega)
    have h1 := packFat_getElem? tbl k 1 hi (by omega)
    have hidx : 2 * k * 3 / 2 = 3 * k := by omega
    have hpar : 2 * k % 2 = 0 := by omega
    unfold nextCluster loadU16
    simp only [hidx, hpar, if_true]
    rw [Nat.add_zero] at h0
    rw [h0, h1]
    simp only [packPair, List.getElem?_cons_zero, List.getElem?_cons_succ, Option.map_some',
      packPair_even _ _ (hget (2 * k))]
    rw [Nat.mod_eq_of_lt (by have := hget (2 * k); omega)]
  · subst hk
    have h1 := packFat_getElem? tbl k 1 (by omega) (by omega)
    have h2 := packFat_getElem? tbl k 2 (by omega) (by omega)
    have hidx : (2 * k + 1) * 3 / 2 = 3 * k + 1 := by omega
    have hpar : ¬ (2 * k + 1) % 2 = 0 := by omega
    unfold nextCluster loadU16
    simp only [hidx, hpar, if_false]
    rw [h1, show 3 * k + 1 + 1 = 3 * k + 2 from rfl, h2]
    simp only [packPair, List.getElem?_cons_zero, List.getElem?_cons_succ, Option.map_some',
      packPair_odd _ _ (hget (2 * k)) (hget (2 * k + 1))]
    rw [Nat.mod_eq_of_lt (by have := hget (2 * k + 1); omega)]

/-! ## Entering a chain in a table -/

theorem linkChain_length (cs : List Nat) (e : Nat) :
    ∀ tbl : List Nat, (linkChain tbl cs e).length = tbl.length := by
  induction cs with
  | nil => intro tbl; rfl
  | cons c cs ih =>
    intro tbl
    cases cs with
    | nil => simp [linkChain]
    | cons d cs => rw [linkChain, ih, List.length_set]

theorem linkChain_bound (cs : List Nat) (e : Nat) (he : e < 4096) (hcs : ∀ c ∈ cs, c < 4096) :
    ∀ tbl : List Nat, (∀ x ∈ tbl, x < 4096) → ∀ x ∈ linkChain tbl cs e, x < 4096 := by
  induction cs with
  | nil => intro tbl h; exact h
  | cons c cs ih =>
    intro tbl h
    cases cs with
    | nil =>
      intro x hx
      rcases List.mem_or_eq_of_mem_set hx with hx | hx
      · exact h x hx
      · omega
    | cons d cs =>
      rw [linkChain]
      apply ih (fun y hy => hcs y (List.mem_cons_of_mem _ hy))
      intro x hx
      rcases List.mem_or_eq_of_mem_set hx with hx | hx
      · exact h x hx
      · rw [hx]; exact hcs d (List.mem_cons_of_mem _ (List.mem_cons_self _ _))

theorem linkChain_getElem?_of_not_mem (cs : List Nat) (e c : Nat) (hc : c ∉ cs) :
    ∀ tbl : List Nat, (linkChain tbl cs e)[c]? = tbl[c]? := by
  induction cs with
  | nil => intro tbl; rfl
  | cons a cs ih =>
    intro tbl
    have hne : a ≠ c := fun h => hc (h ▸ List.mem_cons_self _ _)
    have hc' : c ∉ cs := fun h => hc (List.mem_cons_of_mem _ h)
    cases cs with
    | nil => rw [linkChain, List.getElem?_set_ne hne]
    | cons d cs => rw [linkChain, ih hc', List.getElem?_set_ne hne]

/-- In the table that holds the chain `cs`, each cluster of `cs` refers to its
successor and the last one holds `e`. -/
theorem linkChain_links (cs : List Nat) (e : Nat) (hnd : cs.Nodup) :
    ∀ tbl : List Nat, (∀ c ∈ cs, c < tbl.length) →
      List.Chain' (fun a b => (linkChain tbl cs e)[a]? = some b) cs ∧
        ∀ last, cs.getLast? = some last → (linkChain tbl cs e)[last]? = some e := by
  induction cs with
  | nil => intro tbl _; exact ⟨List.chain'_nil, fun last h => by cases h⟩
  | cons c cs ih =>
    intro tbl hlen
    have hc := hlen c (List.mem_cons_self _ _)
    cases cs with
    | nil =>
      refine ⟨List.chain'_singleton _, ?_⟩
      intro last hl
      simp only [List.getLast?_singleton, Option.some.injEq] at hl
      subst hl
      rw [linkChain, List.getElem?_set_self hc]
    | cons d cs =>
      have hnd' := (List.nodup_cons.1 hnd)
      have hrec := ih hnd'.2 (tbl.set c d) (fun x hx => by
        rw [List.length_set]; exact hlen x (List.mem_cons_of_mem _ hx))
      rw [linkChain]
      refine ⟨List.chain'_cons.2 ⟨?_, hrec.1⟩, ?_⟩
      · rw [linkChain_getElem?_of_not_mem _ _ _ hnd'.1, List.getElem?_set_self hc]
      · intro last hl
        exact hrec.2 last (by simpa using hl)

/-- The packed table that holds the chain `cs` ended by `e`, possibly followed by
further bytes, is a FAT in which `cs` is a chain whose last entry decodes to `e`. -/
theorem packFat_linkChain (tbl cs : List Nat) (e : Nat) (pad : List Byte) (hnd : cs.Nodup)
    (hrange : ∀ c ∈ cs, 2 ≤ c ∧ c ≤ 0x0FF6) (he : e < 4096)
    (htbl : ∀ x ∈ tbl, x < 4096) (hlen : ∀ c ∈ cs, c < tbl.length) :
    IsChain (packFat (linkChain tbl cs e) ++ pad) cs ∧
      ∀ last, cs.getLast? = some last →
        nextCluster (packFat (linkChain tbl cs e) ++ pad) last = some e := by
  have hb := linkChain_bound cs e he (fun c hc => by have := hrange c hc; omega) tbl htbl
  have hl := linkChain_length cs e tbl
  have hdec : ∀ a, a < tbl.length → ∀ b, (linkChain tbl cs e)[a]? = some b →
      nextCluster (packFat (linkChain tbl cs e) ++ pad) a = some b := by
    intro a ha b hab
    have hin : a * 3 / 2 + 1 < (packFat (linkChain tbl cs e)).length := by
      rw [packFat_length, hl]; omega
    rw [nextCluster_append _ _ _ hin, nextCluster_packFat _ hb a (by rw [hl]; exact ha),
      List.getD_eq_getElem?_getD, hab]
    rfl
  have hlinks := linkChain_links cs e hnd tbl hlen
  refine ⟨?_, fun last hlast => hdec last (hlen last ?_) e (hlinks.2 last hlast)⟩
  · unfold IsChain
    refine (List.Chain'.iff_mem.1 hlinks.1).imp ?_
    rintro a b ⟨ha, hb', hab⟩
    exact ⟨hdec a (hlen a ha) b hab, by have := hrange b hb'; omega⟩
  · obtain ⟨ys, hys⟩ := List.getLast?_eq_some_iff.1 hlast
    rw [hys]; simp

/-! ## Invariants of the loop -/

theorem loopBody_eq_some (G : Globals) (disk : List Byte) (s s' : ReadState)
    (hok : s.ok = true) (h : loopBody G disk s = some s') :
    ∃ v, nextCluster G.g_Fat s.currentCluster = some v ∧
      s' = { ok := (readSectors G disk (clusterLba G s.currentCluster)
                      G.g_BootSector.SectorsPerCluster.val).1
             currentCluster := v
             outputBuffer := s.outputBuffer + clusterBytes G
             written := s.written ++ clusterData G disk s.currentCluster
             reads := s.reads ++ [clusterRead G s.currentCluster] } := by
  unfold loopBody at h
  cases hv : nextCluster G.g_Fat s.currentCluster with
  | none => rw [hv] at h; cases h
  | some v =>
    rw [hv] at h
    refine ⟨v, rfl, ?_⟩
    simp only [Option.some.injEq] at h
    rw [← h]
    simp [hok, clusterBytes, clusterData, clusterRead]

/-- Induction over the iterations of the loop: a property `I` of the states at the
head of the loop and a property `R` of the states in which a run is observed, after
any number of iterations or on return. -/
theorem readFileLoop_induct (G : Globals) (disk : List Byte) (I R : ReadState → Prop)
    (hIR : ∀ s, I s → R s)
    (hstep : ∀ s s', I s → loopBody G disk s = some s' →
      R s' ∧ (s'.ok = true → s'.currentCluster < 0x0FF7 → I s')) :
    ∀ (fuel : Nat) (s st : ReadState), I s →
      (readFileLoop G disk fuel s = Outcome.returned st
        ∨ readFileLoop G disk fuel s = Outcome.outOfFuel st) → R st := by
  intro fuel
  induction fuel with
  | zero =>
    intro s st hI h
    rcases h with h | h
    · cases h
    · simp only [readFileLoop, Outcome.outOfFuel.injEq] at h
      exact h ▸ hIR s hI
  | succ fuel ih =>
    intro s st hI h
    unfold readFileLoop at h
    cases hb : loopBody G disk s with
    | none =>
      rw [hb] at h
      rcases h with h | h <;> cases h
    | some s' =>
      rw [hb] at h
      obtain ⟨hR, hI'⟩ := hstep s s' hI hb
      simp only at h
      by_cases hc : (s'.ok && decide (s'.currentCluster < 0x0FF7)) = true
      · rw [if_pos hc] at h
        simp only [Bool.and_eq_true, decide_eq_true_eq] at hc
        exact ih s' st (hI' hc.1 hc.2) h
      · rw [if_neg hc] at h
        rcases h with h | h
        · simp only [Outcome.returned.injEq] at h
          exact h ▸ hR
        · cases h

theorem readFile_cases (G : Globals) (fileEntry : DirectoryEntry) (disk : List Byte)
    (fuel : Nat) (ret : Bool) (st : ReadState)
    (h : readFile G fileEntry disk fuel = Outcome.returned (ret, st)
      ∨ readFile G fileEntry disk fuel = Outcome.outOfFuel st) :
    (readFileLoop G disk fuel (initialState fileEntry) = Outcome.returned st
        ∨ readFileLoop G disk fuel (initialState fileEntry) = Outcome.outOfFuel st) ∧
      (readFile G fileEntry disk fuel = Outcome.returned (ret, st) →
        ret = (st.ok && decide (st.currentCluster ≠ 0x0FF7))) := by
  unfold readFile at h ⊢
  cases hl : readFileLoop G disk fuel (initialState fileEntry) with
  | returned s =>
    rw [hl] at h
    simp only at h ⊢
    rcases h with h | h
    · simp only [Outcome.returned.injEq, Prod.mk.injEq] at h
      obtain ⟨h1, h2⟩ := h
      subst h2
      exact ⟨Or.inl rfl, fun _ => h1.symm⟩
    · cases h
  | undefinedBehaviour s =>
    rw [hl] at h
    rcases h with h | h <;> cases h
  | outOfFuel s =>
    rw [hl] at h
    simp only at h ⊢
    rcases h with h | h
    · cases h
    · simp only [Outcome.outOfFuel.injEq] at h
      subst h
      exact ⟨Or.inr rfl, fun h' => by cases h'⟩

theorem nextCluster_le (fat : List Byte) (c v : Nat) (h : nextCluster fat c = some v) :
    v ≤ 0x0FFF := by
  by_cases hin : c * 3 / 2 + 1 < fat.length
  · rw [nextCluster_eq fat c hin] at h
    simp only [Option.some.injEq] at h
    have hlt := le16_lt fat (c * 3 / 2)
    split at h
    · rw [← h]; exact Nat.and_le_right
    · rw [← h, Nat.shiftRight_eq_div_pow]; omega
  · unfold nextCluster at h
    simp only [loadU16_eq_none fat (c * 3 / 2) (by omega), Option.map_none', ite_self] at h
    cases h

/-- On every state in which a run of the loop is observed with `ok` still true, the
bytes written and the advance of `outputBuffer` are one cluster for each read. -/
theorem readFileLoop_length (G : Globals) (disk : List Byte) (fuel : Nat) (s st : ReadState)
    (hs : s.ok = true ∧ s.written.length = s.reads.length * clusterBytes G
      ∧ s.outputBuffer = s.reads.length * clusterBytes G)
    (h : readFileLoop G disk fuel s = Outcome.returned st
      ∨ readFileLoop G disk fuel s = Outcome.outOfFuel st) :
    st.ok = true → st.written.length = st.reads.length * clusterBytes G
      ∧ st.outputBuffer = st.reads.length * clusterBytes G := by
  refine readFileLoop_induct G disk
    (fun s => s.ok = true ∧ s.written.length = s.reads.length * clusterBytes G
      ∧ s.outputBuffer = s.reads.length * clusterBytes G)
    (fun st => st.ok = true → st.written.length = st.reads.length * clusterBytes G
      ∧ st.outputBuffer = st.reads.length * clusterBytes G)
    (fun s hI _ => hI.2) ?_ fuel s st hs h
  intro s s' hI hb
  obtain ⟨v, -, rfl⟩ := loopBody_eq_some G disk s s' hI.1 hb
  have key : (readSectors G disk (clusterLba G s.currentCluster)
      G.g_BootSector.SectorsPerCluster.val).1 = true →
      (s.written ++ clusterData G disk s.currentCluster).length
          = (s.reads ++ [clusterRead G s.currentCluster]).length * clusterBytes G ∧
        s.outputBuffer + clusterBytes G
          = (s.reads ++ [clusterRead G s.currentCluster]).length * clusterBytes G := by
    intro hr
    have hd := clusterData_length G disk s.currentCluster hr
    simp only [List.length_append, List.length_singleton, hd, hI.2.1, hI.2.2, Nat.add_mul,
      Nat.one_mul, and_self]
  exact ⟨key, fun hok _ => ⟨hok, key hok⟩⟩

/-- Every read issued by the loop fetches a cluster number that is the one the loop
was entered with or a decoded FAT value below `0x0FF7`. -/
theorem readFileLoop_reads (G : Globals) (disk : List Byte) (first : Nat) (fuel : Nat)
    (s st : ReadState) (hok : s.ok = true) (hcur : s.currentCluster = first)
    (hreads : s.reads = [])
    (h : readFileLoop G disk fuel s = Outcome.returned st
      ∨ readFileLoop G disk fuel s = Outcome.outOfFuel st) :
    ∀ r ∈ st.reads, ∃ c,
      (c = first ∨ ∃ p, nextCluster G.g_Fat p = some c ∧ c < 0x0FF7) ∧
        r = (clusterLba G c, G.g_BootSector.SectorsPerCluster.val) := by
  refine readFileLoop_induct G disk
    (fun s => s.ok = true ∧
      (s.currentCluster = first
        ∨ ∃ p, nextCluster G.g_Fat p = some s.currentCluster ∧ s.currentCluster < 0x0FF7) ∧
      ∀ r ∈ s.reads, ∃ c,
        (c = first ∨ ∃ p, nextCluster G.g_Fat p = some c ∧ c < 0x0FF7) ∧
          r = (clusterLba G c, G.g_BootSector.SectorsPerCluster.val))
    (fun st => ∀ r ∈ st.reads, ∃ c,
        (c = first ∨ ∃ p, nextCluster G.g_Fat p = some c ∧ c < 0x0FF7) ∧
          r = (clusterLba G c, G.g_BootSector.SectorsPerCluster.val))
    (fun s hI => hI.2.2) ?_ fuel s st ⟨hok, Or.inl hcur, by rw [hreads]; simp⟩ h
  intro s s' hI hb
  obtain ⟨v, hv, rfl⟩ := loopBody_eq_some G disk s s' hI.1 hb
  have key : ∀ r ∈ s.reads ++ [clusterRead G s.currentCluster], ∃ c,
      (c = first ∨ ∃ p, nextCluster G.g_Fat p = some c ∧ c < 0x0FF7) ∧
        r = (clusterLba G c, G.g_BootSector.SectorsPerCluster.val) := by
    intro r hr
    rcases List.mem_append.1 hr with hr | hr
    · exact hI.2.2 r hr
    · rw [List.mem_singleton] at hr
      exact ⟨s.currentCluster, hI.2.1, hr⟩
  exact ⟨key, fun hok' hlt => ⟨hok', Or.inr ⟨s.currentCluster, hv, hlt⟩, key⟩⟩

theorem bigFat_length : bigFat.length = 6144 := by
  simp only [bigFat, List.length_append, List.length_replicate, List.length_cons,
    List.length_nil]

theorem pairSystemArea_length : pairSystemArea.length = 6144 := by
  simp only [pairSystemArea, pairFat, List.length_append, List.length_replicate,
    List.length_cons, List.length_nil]

theorem pairFat_entry : nextCluster pairFat 2 = some 0x0FFF := by
  have h0 : pairFat[3]? = some 0xFF := by
    unfold pairFat
    rw [List.getElem?_append_left (by decide)]
    rfl
  have h1 : pairFat[4]? = some 0x0F := by
    unfold pairFat
    rw [List.getElem?_append_left (by decide)]
    rfl
  have hl : loadU16 pairFat 3 = some 0x0FFF := by
    unfold loadU16
    rw [h0, h1]
    rfl
  unfold nextCluster
  simp only [show (2 * 3 / 2 : Nat) = 3 from rfl, hl]
  decide

theorem pairDisk_cluster :
    readSectors pairGlobals pairDisk (clusterLba pairGlobals 2) 2
      = (true, List.replicate 1024 0x41) := by
  have hlba : clusterLba pairGlobals 2 = 12 := by decide
  rw [hlba]
  unfold pairDisk
  rw [readSectors_append_replicate pairGlobals pairSystemArea 362496 0x41 12 2 (by decide)
    (by rw [pairSystemArea_length]; decide) (by rw [pairSystemArea_length]; decide)]
  rfl


/-- With one sector per cluster, a non-zero sector size and no wrap of the 32-bit
sum, the buffer allocated by `main` covers `Size` rounded up to whole clusters. -/
theorem outputBufferSize_covers (G : Globals) (fileEntry : DirectoryEntry)
    (hspc : G.g_BootSector.SectorsPerCluster.val = 1)
    (hb : 0 < G.g_BootSector.BytesPerSector.val)
    (hlt : fileEntry.Size.val + G.g_BootSector.BytesPerSector.val < 4294967296) :
    (fileEntry.Size.val + clusterBytes G - 1) / clusterBytes G * clusterBytes G
      ≤ outputBufferSize G fileEntry := by
  have hcb : clusterBytes G = G.g_BootSector.BytesPerSector.val := by
    unfold clusterBytes; rw [hspc, Nat.one_mul]
  unfold outputBufferSize
  rw [hcb, Nat.mod_eq_of_lt hlt]
  have := Nat.div_mul_le_self
    (fileEntry.Size.val + G.g_BootSector.BytesPerSector.val - 1)
    G.g_BootSector.BytesPerSector.val
  omega

/-! ## The first fetch and the bounds of the FAT accesses -/

theorem loopBody_eq_fetch (G : Globals) (disk : List Byte) (s : ReadState) :
    loopBody G disk s
      = (nextCluster G.g_Fat s.currentCluster).map
          (fun next => { fetchCluster G disk s with currentCluster := next }) := by
  unfold loopBody fetchCluster
  cases nextCluster G.g_Fat s.currentCluster <;> rfl

theorem nextCluster_eq_none_iff (fat : List Byte) (c : Nat) :
    nextCluster fat c = none ↔ fat.length ≤ c * 3 / 2 + 1 := by
  constructor
  · intro h
    by_contra hlt
    rw [nextCluster_eq fat c (by omega)] at h
    cases h
  · intro h
    unfold nextCluster
    simp only [loadU16_eq_none fat (c * 3 / 2) h, Option.map_none', ite_self]

theorem nextCluster_congr (fat fat' : List Byte) (c : Nat)
    (h0 : fat[c * 3 / 2]? = fat'[c * 3 / 2]?)
    (h1 : fat[c * 3 / 2 + 1]? = fat'[c * 3 / 2 + 1]?) :
    nextCluster fat c = nextCluster fat' c := by
  unfold nextCluster loadU16
  simp only [h0, h1]

/-- With a FAT buffer of at least 6131 bytes, a loop entered at a cluster number
below `0x0FF7` never leaves the buffer, and every state at the head of the loop
holds a cluster number below `0x0FF7`. -/
theorem readFileLoop_in_bounds (G : Globals) (disk : List Byte)
    (hlen : 6131 ≤ G.g_Fat.length) (fuel : Nat) :
    ∀ s : ReadState, s.currentCluster < 0x0FF7 →
      (∀ u, readFileLoop G disk fuel s ≠ Outcome.undefinedBehaviour u) ∧
        ∀ st, readFileLoop G disk fuel s = Outcome.outOfFuel st →
          st.currentCluster < 0x0FF7 := by
  induction fuel with
  | zero =>
    intro s hs
    refine ⟨(fun u h => by cases h), ?_⟩
    intro st h
    simp only [readFileLoop, Outcome.outOfFuel.injEq] at h
    exact h ▸ hs
  | succ fuel ih =>
    intro s hs
    have hin : s.currentCluster * 3 / 2 + 1 < G.g_Fat.length := by omega
    have hb : ∃ s', loopBody G disk s = some s' := by
      rw [loopBody_eq_fetch, nextCluster_eq G.g_Fat _ hin]
      exact ⟨_, rfl⟩
    obtain ⟨s', hs'⟩ := hb
    unfold readFileLoop
    rw [hs']
    simp only
    by_cases hc : (s'.ok && decide (s'.currentCluster < 0x0FF7)) = true
    · rw [if_pos hc]
      simp only [Bool.and_eq_true, decide_eq_true_eq] at hc
      exact ih s' hc.2
    · rw [if_neg hc]
      exact ⟨(fun u h => by cases h), (fun st h => by cases h)⟩

theorem fetchCluster_first_read (G : Globals) (disk : List Byte) (x : Nat × Nat) (n : Nat)
    (s : ReadState) (hs : s.reads.head? = some x ∧ n ≤ s.outputBuffer) :
    (fetchCluster G disk s).reads.head? = some x ∧ n ≤ (fetchCluster G disk s).outputBuffer := by
  have hne : s.reads ≠ [] := by
    intro he
    rw [he] at hs
    cases hs.1
  refine ⟨?_, ?_⟩
  · show (if s.ok then s.reads ++ [_] else s.reads).head? = some x
    split
    · rw [List.head?_append_of_ne_nil _ hne]; exact hs.1
    · exact hs.1
  · show n ≤ s.outputBuffer + _
    have := hs.2
    omega

/-- From a state in which a read has been issued, a run of the loop ends, for every
fuel, in one of the three outcomes, and the state of the outcome has the same first
read and a cursor that is not smaller. -/
theorem readFileLoop_first_read (G : Globals) (disk : List Byte) (x : Nat × Nat) (n : Nat)
    (fuel : Nat) :
    ∀ s : ReadState, s.reads.head? = some x ∧ n ≤ s.outputBuffer →
      ∃ st, (readFileLoop G disk fuel s = Outcome.returned st
          ∨ readFileLoop G disk fuel s = Outcome.outOfFuel st
          ∨ readFileLoop G disk fuel s = Outcome.undefinedBehaviour st) ∧
        st.reads.head? = some x ∧ n ≤ st.outputBuffer := by
  induction fuel with
  | zero => intro s hs; exact ⟨s, Or.inr (Or.inl rfl), hs⟩
  | succ fuel ih =>
    intro s hs
    have hf := fetchCluster_first_read G disk x n s hs
    unfold readFileLoop
    rw [loopBody_eq_fetch]
    cases nextCluster G.g_Fat s.currentCluster with
    | none => exact ⟨_, Or.inr (Or.inr rfl), hf⟩
    | some v =>
      simp only [Option.map_some']
      by_cases hc : ((fetchCluster G disk s).ok && decide (v < 0x0FF7)) = true
      · rw [if_pos hc]
        exact ih _ hf
      · rw [if_neg hc]
        exact ⟨_, Or.inl rfl, hf⟩

/-- In a chain that starts at a 16-bit cluster number every member is a 16-bit
value. -/
theorem IsChain.lt_of_head (fat : List Byte) :
    ∀ (cs : List Nat) (first : Nat), IsChain fat cs → cs.head? = some first →
      first < 65536 → ∀ c ∈ cs, c < 65536 := by
  intro cs
  induction cs with
  | nil => intro first _ _ _ c hc; cases hc
  | cons a cs ih =>
    intro first hch hhead hfirst c hc
    simp only [List.head?_cons, Option.some.injEq] at hhead
    subst hhead
    rcases List.mem_cons.1 hc with hc | hc
    · rw [hc]; exact hfirst
    · cases cs with
      | nil => cases hc
      | cons d ds =>
        have h := List.chain'_cons.1 hch
        have hd : d < 65536 := by have := h.1.2; omega
        exact ih d h.2 rfl hd c hc

/-- The print loop over `n` bytes from index `i`, all of them held by the buffer. -/
theorem printFrom_eq (buffer : List Byte) (n : Nat) :
    ∀ i, i + n ≤ buffer.length →
      printFrom buffer n i = some (((buffer.drop i).take n).flatMap printByte) := by
  induction n with
  | zero => intro i _; simp [printFrom]
  | succ n ih =>
    intro i hi
    have hlt : i < buffer.length := by omega
    rw [printFrom, List.getElem?_eq_getElem hlt, ih (i + 1) (by omega)]
    simp only [Option.map_some']
    rw [List.drop_eq_getElem_cons hlt, List.take_succ_cons, List.flatMap_cons]


/-! ## Success of a sector read -/

theorem readSectors_snd (G : Globals) (disk : List Byte) (lba count : Nat) :
    (readSectors G disk lba count).2
      = (disk.drop (lba * G.g_BootSector.BytesPerSector.val % 4294967296)).take
          (count * G.g_BootSector.BytesPerSector.val) := by
  unfold readSectors fread
  simp only [Nat.mul_comm count]

/-- `readSectors` returns `true` exactly when no sector is asked for, or the sector
size is not 0 and the image holds the bytes asked for from the offset on. -/
theorem readSectors_ok_iff (G : Globals) (disk : List Byte) (lba count : Nat) :
    (readSectors G disk lba count).1 = true ↔
      count = 0 ∨
        (0 < G.g_BootSector.BytesPerSector.val ∧
          lba * G.g_BootSector.BytesPerSector.val % 4294967296
            + count * G.g_BootSector.BytesPerSector.val ≤ disk.length) := by
  unfold readSectors fread
  simp only [decide_eq_true_eq, List.length_take, List.length_drop]
  generalize G.g_BootSector.BytesPerSector.val = b
  generalize lba * b % 4294967296 = pos
  have hcomm := Nat.mul_comm b count
  by_cases hb : b = 0
  · subst hb
    simp only [if_true]
    constructor
    · intro h; exact Or.inl h.symm
    · rintro (h | ⟨h, -⟩)
      · exact h.symm
      · omega
  · rw [if_neg hb]
    have hpos : 0 < b := Nat.pos_of_ne_zero hb
    constructor
    · intro h
      by_cases hc : count = 0
      · exact Or.inl hc
      · right
        refine ⟨hpos, ?_⟩
        have h1 := Nat.div_mul_le_self (min (b * count) (disk.length - pos)) b
        rw [h] at h1
        have h2 : 0 < count * b := Nat.mul_pos (Nat.pos_of_ne_zero hc) hpos
        have h3 : min (b * count) (disk.length - pos) ≤ disk.length - pos :=
          Nat.min_le_right _ _
        omega
    · rintro (h | ⟨-, h⟩)
      · subst h
        simp
      · have h1 : min (b * count) (disk.length - pos) = b * count :=
          Nat.min_eq_left (by omega)
        rw [h1, Nat.mul_div_cancel_left _ hpos]

/-- The contents of cluster `c` as bytes of the image. -/
theorem clusterData_eq (G : Globals) (disk : List Byte) (c : Nat) :
    clusterData G disk c
      = (disk.drop
            ((((G.g_RootDirectoryEnd.val : Int)
                  + ((c : Int) - 2) * (G.g_BootSector.SectorsPerCluster.val : Int))
                % 4294967296).toNat
              * G.g_BootSector.BytesPerSector.val % 4294967296)).take
          (G.g_BootSector.SectorsPerCluster.val * G.g_BootSector.BytesPerSector.val) := by
  unfold clusterData
  rw [readSectors_snd]
  rfl

/-! ## The boot sector -/

theorem byteAt_take (mem : List Byte) (n off : Nat) (h : off < n) :
    byteAt (mem.take n) off = byteAt mem off := by
  unfold byteAt
  rw [List.getD_eq_getElem?_getD, List.getD_eq_getElem?_getD, List.getElem?_take_of_lt h]

theorem readBootSector_eq (disk : List Byte) (h : 62 ≤ disk.length) :
    readBootSector disk = (true, overlayBootSector (disk.take 62)) := by
  have hl : (disk.take 62).length = 62 := by
    rw [List.length_take]; exact Nat.min_eq_left h
  unfold readBootSector
  simp only [fread, sizeofBootSector, List.drop_zero, Nat.mul_one, hl, Nat.sub_self,
    List.replicate_zero, List.append_nil]
  rfl

/-! ## Packed tables of odd length -/

theorem packFat_append_zero (tbl : List Nat) (h : tbl.length % 2 = 1) :
    packFat (tbl ++ [0]) = packFat tbl := by
  induction tbl using packFat.induct with
  | case1 => simp at h
  | case2 a => simp [packFat]
  | case3 a b rest ih =>
    have h' : rest.length % 2 = 1 := by
      simp only [List.length_cons] at h; omega
    show packPair a b ++ packFat (rest ++ [0]) = packPair a b ++ packFat rest
    rw [ih h']

/-- Decoding at every index whose two bytes lie in the packed table. -/
theorem nextCluster_packFat_getD (tbl : List Nat) (htbl : ∀ x ∈ tbl, x < 4096) (i : Nat)
    (hi : i * 3 / 2 + 1 < (packFat tbl).length) :
    nextCluster (packFat tbl) i = some (tbl.getD i 0) := by
  by_cases hlt : i < tbl.length
  · exact nextCluster_packFat tbl htbl i hlt
  · rw [packFat_length] at hi
    have hodd : tbl.length % 2 = 1 := by omega
    have hin : i = tbl.length := by omega
    have htbl' : ∀ x ∈ tbl ++ [0], x < 4096 := by
      intro x hx
      rcases List.mem_append.1 hx with hx | hx
      · exact htbl x hx
      · rw [List.mem_singleton] at hx; omega
    have h := nextCluster_packFat (tbl ++ [0]) htbl' i (by simp; omega)
    rw [packFat_append_zero tbl hodd] at h
    rw [h, hin]
    simp [List.getD_eq_getElem?_getD]


/-! ## Properties of the reader -/

/-- C1: whenever the two bytes at offsets `c * 3 / 2` and `c * 3 / 2 + 1` lie in
the FAT buffer, the body of the loop of `readFile` run at `currentCluster = c`
assigns to `currentCluster` the value `le16 (c * 3 / 2) & 0x0FFF` when `c` is even
and `le16 (c * 3 / 2) >> 4` when `c` is odd. -/
theorem readFile_decode_le16 (G : Globals) (disk : List Byte) (s : ReadState)
    (h : s.currentCluster * 3 / 2 + 1 < G.g_Fat.length) :
    nextCluster G.g_Fat s.currentCluster
        = some (if s.currentCluster % 2 = 0
            then le16 G.g_Fat (s.currentCluster * 3 / 2) &&& 0x0FFF
            else le16 G.g_Fat (s.currentCluster * 3 / 2) >>> 4) ∧
      ∃ s', loopBody G disk s = some s' ∧
        s'.currentCluster
          = if s.currentCluster % 2 = 0
            then le16 G.g_Fat (s.currentCluster * 3 / 2) &&& 0x0FFF
            else le16 G.g_Fat (s.currentCluster * 3 / 2) >>> 4 := by
  have hn := nextCluster_eq G.g_Fat s.currentCluster h
  refine ⟨hn, ?_⟩
  unfold loopBody
  simp only [hn]
  exact ⟨_, rfl, rfl⟩

/-- Witness of C1 on the small image: the entry of cluster 3 (odd) decodes to
`0x0FFF`. -/
theorem readFile_decode_le16_witness :
    (initialState (mkEntry nameUpper 3 100)).currentCluster * 3 / 2 + 1
        < smallGlobals.g_Fat.length ∧
      nextCluster smallGlobals.g_Fat 3 = some 0x0FFF :=
  ⟨by decide,
   (readFile_decode_le16 smallGlobals smallDisk (initialState (mkEntry nameUpper 3 100))
      (by decide)).1.trans (by decide)⟩

/-- C2: let the FAT buffer be the packed table in which the chain `c0 .. c(n-1)` of
distinct cluster numbers in `[2, 0x0FF6]` has been entered with the end marker
`e` in `[0x0FF8, 0x0FFF]` (possibly followed by further bytes of the FAT sectors),
let `g_RootDirectoryEnd` be the value stored by `readRootDirectory`, and let the
sector reads of the clusters of the chain succeed. Then `readFile` started at
`FirstClusterLow = c0` returns `true` and the reads it issues are exactly those at
the LBAs `g_RootDirectoryEnd + (c(i) - 2) * SectorsPerCluster`, in chain order, each
of `SectorsPerCluster` sectors. -/
theorem readFile_round_trip (G : Globals) (fileEntry : DirectoryEntry) (disk : List Byte)
    (tbl cs : List Nat) (e : Nat) (pad : List Byte) (fuel : Nat)
    (hG : Loaded G) (hne : cs ≠ []) (hnd : cs.Nodup)
    (hrange : ∀ c ∈ cs, 2 ≤ c ∧ c ≤ 0x0FF6) (he : 0x0FF8 ≤ e ∧ e ≤ 0x0FFF)
    (htbl : ∀ x ∈ tbl, x < 4096) (hlen : ∀ c ∈ cs, c < tbl.length)
    (hfat : G.g_Fat = packFat (linkChain tbl cs e) ++ pad)
    (hfirst : cs.head? = some fileEntry.FirstClusterLow.val)
    (hread : ∀ c ∈ cs, Readable G disk c) (hfuel : cs.length ≤ fuel) :
    ∃ st, readFile G fileEntry disk fuel = Outcome.returned (true, st) ∧
      st.reads
        = cs.map (fun c =>
            (G.g_RootDirectoryEnd.val + (c - 2) * G.g_BootSector.SectorsPerCluster.val,
              G.g_BootSector.SectorsPerCluster.val)) := by
  obtain ⟨hch, hend⟩ := packFat_linkChain tbl cs e pad hnd hrange (by omega) htbl hlen
  rw [← hfat] at hch hend
  obtain ⟨pre, last, hcs⟩ : ∃ pre last, cs = pre ++ [last] := by
    rcases List.eq_nil_or_concat cs with h | ⟨pre, last, h⟩
    · exact absurd h hne
    · exact ⟨pre, last, by rw [h, List.concat_eq_append]⟩
  have hlast : cs.getLast? = some last := List.getLast?_eq_some_iff.2 ⟨pre, hcs⟩
  have hlen' : cs.length = pre.length + 1 := by rw [hcs]; simp
  have h := readFileLoop_chain G disk pre last e (initialState fileEntry) fuel rfl
    (hcs ▸ hch) (hcs ▸ hfirst) (hcs ▸ hread) (hend last hlast) (by omega) (by omega)
  refine ⟨advance G disk (initialState fileEntry) (pre ++ [last]) e, ?_, ?_⟩
  · rw [readFile_eq G fileEntry disk fuel _ h]
    have hne7 : e ≠ 0x0FF7 := by omega
    simp [advance, hne7]
  · simp only [advance, initialState, List.nil_append, ← hcs]
    apply List.map_congr_left
    intro c hc
    have hr := hrange c hc
    simp only [clusterRead, clusterLba_exact G hG c hr.1 (by omega)]

/-- Witness of C2: the chain 2, 3 ended by `0x0FFF` on the small image; the reads are
issued at the LBAs 3 and 4, that is `g_RootDirectoryEnd` and
`g_RootDirectoryEnd + SectorsPerCluster`. -/
theorem readFile_round_trip_witness :
    ∃ st, readFile smallGlobals (mkEntry nameUpper 2 100) smallDisk 2
        = Outcome.returned (true, st) ∧
      st.reads
        = [(smallGlobals.g_RootDirectoryEnd.val, 1),
           (smallGlobals.g_RootDirectoryEnd.val
              + smallGlobals.g_BootSector.SectorsPerCluster.val, 1)] :=
  (readFile_round_trip smallGlobals (mkEntry nameUpper 2 100) smallDisk
      [0x0FF0, 0x0FFF, 0, 0] [2, 3] 0x0FFF (List.replicate 58 0) 2
      (by decide) (by decide) (by decide) (by decide) (by decide) (by decide) (by decide)
      (by decide) (by decide) (by decide) (by decide)).elim
    (fun st h => ⟨st, h.1, h.2.trans (by decide)⟩)

/-- C3: for a chain of `n` clusters that starts at `FirstClusterLow`, whose sector
reads all succeed and whose last FAT entry holds a value `≥ 0x0FF8`, `readFile`
returns `true` (given fuel for `n` iterations). The reads issued are those of the
clusters of the chain, in chain order, `SectorsPerCluster` sectors each at the LBA
`(g_RootDirectoryEnd + (c - 2) * SectorsPerCluster) mod 2^32`; the bytes written are
the concatenation, in chain order, of the `SectorsPerCluster * BytesPerSector` bytes
of the image that start at the byte offset `(LBA * BytesPerSector) mod 2^32` of each
cluster, and number exactly `n * SectorsPerCluster * BytesPerSector`, as does the
advance of `outputBuffer`; the entry's `Size` has no influence on the result. Once
`g_RootDirectoryEnd` is the value stored by `readRootDirectory` and the clusters are
numbered from 2, the LBAs are the exact sums, and with byte offsets below `2^32` the
bytes are those at the offsets `(g_RootDirectoryEnd + (c - 2) * SectorsPerCluster)
* BytesPerSector`. -/
theorem readFile_chain_output (G : Globals) (fileEntry : DirectoryEntry) (disk : List Byte)
    (cs : List Nat) (last e fuel : Nat)
    (hhead : cs.head? = some fileEntry.FirstClusterLow.val)
    (hch : IsChain G.g_Fat cs) (hlast : cs.getLast? = some last)
    (hend : nextCluster G.g_Fat last = some e) (he : 0x0FF8 ≤ e)
    (hread : ∀ c ∈ cs, Readable G disk c) (hfuel : cs.length ≤ fuel) :
    ∃ st, readFile G fileEntry disk fuel = Outcome.returned (true, st) ∧
      st.reads
        = cs.map (fun c : Nat =>
            ((((G.g_RootDirectoryEnd.val : Int)
                  + ((c : Int) - 2) * (G.g_BootSector.SectorsPerCluster.val : Int))
                % 4294967296).toNat,
              G.g_BootSector.SectorsPerCluster.val)) ∧
      st.written
        = (cs.map (fun c : Nat =>
            (disk.drop
                ((((G.g_RootDirectoryEnd.val : Int)
                      + ((c : Int) - 2) * (G.g_BootSector.SectorsPerCluster.val : Int))
                    % 4294967296).toNat
                  * G.g_BootSector.BytesPerSector.val % 4294967296)).take
              (G.g_BootSector.SectorsPerCluster.val
                * G.g_BootSector.BytesPerSector.val))).flatten ∧
      st.written.length
        = cs.length * G.g_BootSector.SectorsPerCluster.val * G.g_BootSector.BytesPerSector.val ∧
      st.outputBuffer
        = cs.length * G.g_BootSector.SectorsPerCluster.val * G.g_BootSector.BytesPerSector.val ∧
      (∀ size, readFile G { fileEntry with Size := size } disk fuel
        = Outcome.returned (true, st)) ∧
      (Loaded G → (∀ c ∈ cs, 2 ≤ c) →
        st.reads
            = cs.map (fun c : Nat =>
                (G.g_RootDirectoryEnd.val + (c - 2) * G.g_BootSector.SectorsPerCluster.val,
                  G.g_BootSector.SectorsPerCluster.val)) ∧
          ((∀ c ∈ cs,
              (G.g_RootDirectoryEnd.val + (c - 2) * G.g_BootSector.SectorsPerCluster.val)
                * G.g_BootSector.BytesPerSector.val < 4294967296) →
            st.written
              = (cs.map (fun c : Nat =>
                  (disk.drop
                      ((G.g_RootDirectoryEnd.val
                          + (c - 2) * G.g_BootSector.SectorsPerCluster.val)
                        * G.g_BootSector.BytesPerSector.val)).take
                    (G.g_BootSector.SectorsPerCluster.val
                      * G.g_BootSector.BytesPerSector.val))).flatten)) := by
  have h16 := IsChain.lt_of_head G.g_Fat cs _ hch hhead fileEntry.FirstClusterLow.isLt
  obtain ⟨pre, rfl⟩ := List.getLast?_eq_some_iff.1 hlast
  have hlen : (pre ++ [last]).length = pre.length + 1 := by simp
  have hloop : ∀ entry : DirectoryEntry, entry.FirstClusterLow = fileEntry.FirstClusterLow →
      readFile G entry disk fuel
        = Outcome.returned (true, advance G disk (initialState fileEntry) (pre ++ [last]) e) := by
    intro entry hentry
    have hs : initialState entry = initialState fileEntry := by
      simp [initialState, hentry]
    have h := readFileLoop_chain G disk pre last e (initialState fileEntry) fuel rfl hch hhead
      hread hend (by omega) (by omega)
    rw [← hs] at h
    rw [readFile_eq G entry disk fuel _ (by rw [h, hs])]
    have hne : e ≠ 0x0FF7 := by omega
    simp [advance, hne]
  have hreads : (advance G disk (initialState fileEntry) (pre ++ [last]) e).reads
      = (pre ++ [last]).map (clusterRead G) := by
    simp [advance, initialState]
  have hwritten : (advance G disk (initialState fileEntry) (pre ++ [last]) e).written
      = ((pre ++ [last]).map (clusterData G disk)).flatten := by
    simp [advance, initialState]
  refine ⟨_, hloop fileEntry rfl, ?_, ?_, ?_, ?_, fun size => hloop _ rfl, ?_⟩
  · rw [hreads]
    apply List.map_congr_left
    intro c _
    rfl
  · rw [hwritten]
    congr 1
    apply List.map_congr_left
    intro c _
    exact clusterData_eq G disk c
  · have := flatten_clusterData_length G disk (pre ++ [last]) hread
    rw [hwritten, this]
    simp only [clusterBytes, Nat.mul_assoc]
  · simp only [advance, initialState, Nat.zero_add, clusterBytes, Nat.mul_assoc]
  · intro hG h2
    refine ⟨?_, ?_⟩
    · rw [hreads]
      apply List.map_congr_left
      intro c hc
      simp only [clusterRead, clusterLba_exact G hG c (h2 c hc) (h16 c hc)]
    · intro hoff
      rw [hwritten]
      congr 1
      apply List.map_congr_left
      intro c hc
      rw [clusterData, readSectors_snd, clusterLba_exact G hG c (h2 c hc) (h16 c hc),
        Nat.mod_eq_of_lt (hoff c hc)]

/-- Witness of C3: the file of the small image, the chain 2, 3 ended by `0x0FFF`:
the reads are those at the LBAs 3 and 4, and the output is the 64 bytes `0xAA` of
cluster 2 followed by the 64 bytes `0xBB` of cluster 3. -/
theorem readFile_chain_output_witness :
    ∃ st, readFile smallGlobals (mkEntry nameUpper 2 100) smallDisk 2
        = Outcome.returned (true, st) ∧
      st.reads = [(3, 1), (4, 1)] ∧
      st.written = List.replicate 64 0xAA ++ List.replicate 64 0xBB ∧
      st.written
        = (smallDisk.drop (3 * 64)).take 64 ++ (smallDisk.drop (4 * 64)).take 64 ∧
      st.written.length = 128 ∧ st.outputBuffer = 128 :=
  (readFile_chain_output smallGlobals (mkEntry nameUpper 2 100) smallDisk [2, 3] 3 0x0FFF 2
      (by decide) (List.chain'_cons.2 ⟨⟨by decide, by decide⟩, List.chain'_singleton 3⟩)
      (by decide) (by decide) (by decide) (by decide) (by decide)).elim
    (fun st h =>
      ⟨st, h.1, h.2.1.trans (by decide), h.2.2.1.trans (by decide),
        h.2.2.1.trans (by decide), h.2.2.2.1.trans (by decide),
        h.2.2.2.2.1.trans (by decide)⟩)

/-- C4, counterexample: on the big image an entry whose first cluster is `0x0FF7`,
with the FAT entry `0x0FF7` holding `0x0FFF`, is read with success, and the sectors
of cluster `0x0FF7` itself are fetched (LBA 4124) and stored in the output. -/
theorem readFile_first_cluster_bad_mark :
    (mkEntry nameUpper 0x0FF7 512).FirstClusterLow.val = 0x0FF7 ∧
      readFile bigGlobals (mkEntry nameUpper 0x0FF7 512) bigDisk 1
        = Outcome.returned
            (true, { ok := true
                     currentCluster := 0x0FFF
                     outputBuffer := 512
                     written := List.replicate 512 0x55
                     reads := [(4124, 1)] }) := by
  refine ⟨rfl, ?_⟩
  have hr : Readable bigGlobals bigDisk
      (initialState (mkEntry nameUpper 0x0FF7 512)).currentCluster := by
    show (readSectors bigGlobals bigDisk (clusterLba bigGlobals 0x0FF7) 1).1 = true
    rw [bigDisk_cluster]
  have hd : clusterData bigGlobals bigDisk 0x0FF7 = List.replicate 512 0x55 := by
    show (readSectors bigGlobals bigDisk (clusterLba bigGlobals 0x0FF7) 1).2 = _
    rw [bigDisk_cluster]
  have hloop := readFileLoop_last bigGlobals bigDisk
    (initialState (mkEntry nameUpper 0x0FF7 512)) 0x0FFF 0 rfl hr bigFat_entry (by decide)
  rw [readFile_eq _ _ _ _ _ hloop]
  have hs : (initialState (mkEntry nameUpper 0x0FF7 512)).currentCluster = 0x0FF7 := rfl
  have hb : clusterBytes bigGlobals = 512 := rfl
  have hc : clusterRead bigGlobals 0x0FF7 = (4124, 1) := by decide
  have hw : (initialState (mkEntry nameUpper 0x0FF7 512)).written = [] := rfl
  have hrd : (initialState (mkEntry nameUpper 0x0FF7 512)).reads = [] := rfl
  have ho : (initialState (mkEntry nameUpper 0x0FF7 512)).outputBuffer = 0 := rfl
  simp only [advance, hs, List.map_cons, List.map_nil, List.flatten_cons, List.flatten_nil, hd,
    hb, hc, hw, hrd, ho, List.nil_append, List.append_nil]
  rfl

/-- C4, amended: for a chain that starts at `FirstClusterLow`, whose sector reads all
succeed and whose last FAT entry holds `0x0FF7`, `readFile` returns `false` with `ok`
still true and `currentCluster = 0x0FF7` (the bad-cluster outcome); the output holds
exactly the contents of the clusters of the chain, in order, and the reads issued are
exactly those of the chain, none for the mark `0x0FF7`. -/
theorem readFile_bad_cluster (G : Globals) (fileEntry : DirectoryEntry) (disk : List Byte)
    (cs : List Nat) (last fuel : Nat)
    (hhead : cs.head? = some fileEntry.FirstClusterLow.val)
    (hch : IsChain G.g_Fat cs) (hlast : cs.getLast? = some last)
    (hend : nextCluster G.g_Fat last = some 0x0FF7)
    (hread : ∀ c ∈ cs, Readable G disk c) (hfuel : cs.length ≤ fuel) :
    ∃ st, readFile G fileEntry disk fuel = Outcome.returned (false, st) ∧
      st.ok = true ∧ st.currentCluster = 0x0FF7 ∧
      st.written = (cs.map (clusterData G disk)).flatten ∧
      st.reads = cs.map (fun c => (clusterLba G c, G.g_BootSector.SectorsPerCluster.val)) := by
  obtain ⟨pre, rfl⟩ := List.getLast?_eq_some_iff.1 hlast
  have hlen : (pre ++ [last]).length = pre.length + 1 := by simp
  have h := readFileLoop_chain G disk pre last 0x0FF7 (initialState fileEntry) fuel rfl hch hhead
    hread hend (by omega) (by omega)
  refine ⟨advance G disk (initialState fileEntry) (pre ++ [last]) 0x0FF7, ?_, rfl, rfl, ?_, ?_⟩
  · rw [readFile_eq G fileEntry disk fuel _ h]
    simp [advance]
  · simp [advance, initialState]
  · simp only [advance, initialState, List.nil_append]
    rfl

/-- Witness of C4 (amended): the small image with the FAT entry of cluster 3
changed to `0x0FF7`. -/
theorem readFile_bad_cluster_witness :
    ∃ st, readFile { smallGlobals with g_Fat := [0xF0, 0xFF, 0xFF, 0x03, 0x70, 0xFF] }
          (mkEntry nameUpper 2 100) smallDisk 2 = Outcome.returned (false, st) ∧
      st.ok = true ∧ st.currentCluster = 0x0FF7 ∧ st.reads = [(3, 1), (4, 1)] :=
  (readFile_bad_cluster { smallGlobals with g_Fat := [0xF0, 0xFF, 0xFF, 0x03, 0x70, 0xFF] }
      (mkEntry nameUpper 2 100) smallDisk [2, 3] 3 2
      (by decide) (List.chain'_cons.2 ⟨⟨by decide, by decide⟩, List.chain'_singleton 3⟩)
      (by decide) (by decide) (by decide) (by decide)).elim
    (fun st h => ⟨st, h.1, h.2.1, h.2.2.1, h.2.2.2.2.trans (by decide)⟩)

/-- C5: for an 11-byte query, `findFile` returns the slot `i` exactly when `i` is
the least index below `DirEntryCount` whose name field, the bytes
`[32 * i, 32 * i + 11)` of the directory buffer, equals the query byte for byte, and
returns `NULL` exactly when no slot below `DirEntryCount` has that name. Nothing is case-folded: the directory of the small
image holds `TEST    TXT`, which is found at slot 0, and `test    txt` is absent. -/
theorem findFile_least_match (G : Globals) (name : List Byte) (hname : name.length = 11) :
    (∀ i, findFile G name = some i ↔
        i < G.g_BootSector.DirEntryCount.val ∧
          (G.g_RootDirectory.drop (32 * i)).take 11 = name ∧
          ∀ j, j < i → (G.g_RootDirectory.drop (32 * j)).take 11 ≠ name) ∧
      (findFile G name = none ↔
        ∀ i, i < G.g_BootSector.DirEntryCount.val →
          (G.g_RootDirectory.drop (32 * i)).take 11 ≠ name) ∧
      (findFile smallGlobals nameUpper = some 0 ∧ findFile smallGlobals nameLower = none) := by
  have ht : name.take 11 = name := List.take_of_length_le (by omega)
  refine ⟨?_, ?_, by decide, by decide⟩
  · intro i
    unfold findFile
    rw [findFileFrom_eq_some, ht]
    simp only [entryName, sizeofDirectoryEntry, Nat.zero_le, true_and, Nat.zero_add]
    constructor
    · rintro ⟨h1, h2, h3⟩
      exact ⟨h1, h2.symm, fun j hj he => h3 j trivial hj he.symm⟩
    · rintro ⟨h1, h2, h3⟩
      exact ⟨h1, h2.symm, fun j _ hj he => h3 j hj he.symm⟩
  · unfold findFile
    rw [findFileFrom_eq_none, ht]
    simp only [entryName, sizeofDirectoryEntry, Nat.zero_le, true_implies, Nat.zero_add]
    constructor
    · intro h i hi he; exact h i hi he.symm
    · intro h i hi he; exact h i hi he.symm

/-- Witness of C5 on the small image. -/
theorem findFile_least_match_witness :
    nameUpper.length = 11 ∧
      (findFile smallGlobals nameUpper = some 0 ↔
        0 < smallGlobals.g_BootSector.DirEntryCount.val ∧
          (smallGlobals.g_RootDirectory.drop (32 * 0)).take 11 = nameUpper ∧
          ∀ j, j < 0 → (smallGlobals.g_RootDirectory.drop (32 * j)).take 11 ≠ nameUpper) :=
  ⟨by decide, (findFile_least_match smallGlobals nameUpper (by decide)).1 0⟩

/-- C7, counterexample: on the small image an entry with first cluster 2 and
`Size = 1000` is read with success, and the output holds the two clusters of the
chain, 128 bytes, fewer than `Size`. -/
theorem readFile_success_below_size :
    readFile smallGlobals (mkEntry nameUpper 2 1000) smallDisk 2
        = Outcome.returned
            (true, { ok := true
                     currentCluster := 0x0FFF
                     outputBuffer := 128
                     written := List.replicate 64 0xAA ++ List.replicate 64 0xBB
                     reads := [(3, 1), (4, 1)] }) ∧
      (List.replicate 64 (0xAA : Byte) ++ List.replicate 64 0xBB).length = 128 ∧
      128 < (mkEntry nameUpper 2 1000).Size.val := by
  decide

/-- C7, amended: whenever `readFile` returns `true`, the number of bytes written, and
the advance of `outputBuffer`, is `k * SectorsPerCluster * BytesPerSector` for the
number `k` of clusters read; it is at least `Size` exactly when that product is,
which `readFile` does not examine. -/
theorem readFile_success_length (G : Globals) (fileEntry : DirectoryEntry) (disk : List Byte)
    (fuel : Nat) (st : ReadState)
    (h : readFile G fileEntry disk fuel = Outcome.returned (true, st)) :
    st.written.length
        = st.reads.length * G.g_BootSector.SectorsPerCluster.val
            * G.g_BootSector.BytesPerSector.val ∧
      st.outputBuffer
        = st.reads.length * G.g_BootSector.SectorsPerCluster.val
            * G.g_BootSector.BytesPerSector.val ∧
      (fileEntry.Size.val ≤ st.written.length ↔
        fileEntry.Size.val
          ≤ st.reads.length * G.g_BootSector.SectorsPerCluster.val
              * G.g_BootSector.BytesPerSector.val) := by
  obtain ⟨hloop, hret⟩ := readFile_cases G fileEntry disk fuel true st (Or.inl h)
  have hok : st.ok = true := by
    have := hret h
    simp only [Bool.true_eq, Bool.and_eq_true] at this
    exact this.1
  have hlen := readFileLoop_length G disk fuel (initialState fileEntry) st
    ⟨rfl, by simp [initialState], by simp [initialState]⟩ hloop hok
  simp only [clusterBytes, ← Nat.mul_assoc] at hlen
  exact ⟨hlen.1, hlen.2, by rw [hlen.1]⟩

/-- Witness of C7 (amended): the file of the small image. -/
theorem readFile_success_length_witness :
    (List.replicate 64 (0xAA : Byte) ++ List.replicate 64 0xBB).length = 2 * 1 * 64 :=
  (readFile_success_length smallGlobals (mkEntry nameUpper 2 100) smallDisk 2
      { ok := true
        currentCluster := 0x0FFF
        outputBuffer := 128
        written := List.replicate 64 0xAA ++ List.replicate 64 0xBB
        reads := [(3, 1), (4, 1)] } (by decide)).1

/-- C8: when the clusters `pre` of the chain are read and the sector read of the next
cluster `bad` fails, `readFile` returns `false` whatever value `v` the FAT entry of
`bad` decodes to (a value `≥ 0x0FF8` included); the failing read is the last one
issued; and the output holds the contents of the clusters `pre` in chain order,
followed only by what the failing read transferred. -/
theorem readFile_read_failure (G : Globals) (fileEntry : DirectoryEntry) (disk : List Byte)
    (pre : List Nat) (bad v fuel : Nat)
    (hhead : (pre ++ [bad]).head? = some fileEntry.FirstClusterLow.val)
    (hch : IsChain G.g_Fat (pre ++ [bad]))
    (hread : ∀ c ∈ pre, Readable G disk c) (hbad : ¬ Readable G disk bad)
    (hnext : nextCluster G.g_Fat bad = some v) (hfuel : pre.length + 1 ≤ fuel) :
    ∃ st, readFile G fileEntry disk fuel = Outcome.returned (false, st) ∧
      st.ok = false ∧ st.currentCluster = v ∧
      st.reads
        = (pre ++ [bad]).map (fun c => (clusterLba G c, G.g_BootSector.SectorsPerCluster.val)) ∧
      st.written = (pre.map (clusterData G disk)).flatten ++ clusterData G disk bad ∧
      ((pre.map (clusterData G disk)).flatten).length
        = pre.length * (G.g_BootSector.SectorsPerCluster.val
            * G.g_BootSector.BytesPerSector.val) ∧
      (clusterData G disk bad).length
        ≤ G.g_BootSector.SectorsPerCluster.val * G.g_BootSector.BytesPerSector.val := by
  have h := readFileLoop_chain_failed G disk pre bad v (initialState fileEntry) fuel rfl hch
    hhead hread hbad hnext hfuel
  refine ⟨{ ok := false
            currentCluster := v
            outputBuffer := (initialState fileEntry).outputBuffer
              + (pre.length + 1) * clusterBytes G
            written := (initialState fileEntry).written
              ++ (pre.map (clusterData G disk)).flatten ++ clusterData G disk bad
            reads := (initialState fileEntry).reads ++ (pre ++ [bad]).map (clusterRead G) },
    ?_, rfl, rfl, ?_, ?_, flatten_clusterData_length G disk pre hread,
    readSectors_length_le G disk _ _⟩
  · rw [readFile_eq G fileEntry disk fuel _ h]
    simp
  · simp only [initialState, List.nil_append]
    rfl
  · simp [initialState]

/-- Witness of C8: on the small image cut short inside cluster 3, cluster 2 is read,
the read of cluster 3 fails, and the value decoded afterwards is `0x0FFF`. -/
theorem readFile_read_failure_witness :
    ∃ st, readFile smallGlobals (mkEntry nameUpper 2 100) shortDisk 2
        = Outcome.returned (false, st) ∧
      st.ok = false ∧ st.currentCluster = 0x0FFF ∧ st.reads = [(3, 1), (4, 1)] :=
  (readFile_read_failure smallGlobals (mkEntry nameUpper 2 100) shortDisk [2] 3 0x0FFF 2
      (by decide) (List.chain'_cons.2 ⟨⟨by decide, by decide⟩, List.chain'_singleton 3⟩)
      (by decide) (by decide) (by decide) (by decide)).elim
    (fun st h => ⟨st, h.1, h.2.1, h.2.2.1, h.2.2.2.1.trans (by decide)⟩)

/-- C9, counterexample: on the small image, whose data region starts at LBA 3, an
entry with `FirstClusterLow = 1` is read with success by fetching LBA 2, a sector of
the root directory; and with a FAT in which cluster 2 refers to cluster 1, the entry
with first cluster 2 makes `readFile` fetch LBA 3 and then LBA 2. -/
theorem readFile_fetches_reserved_cluster :
    readFile smallGlobals (mkEntry nameUpper 1 100) smallDisk 1
        = Outcome.returned
            (true, { ok := true
                     currentCluster := 0x0FFF
                     outputBuffer := 64
                     written := smallDir
                     reads := [(2, 1)] }) ∧
      readFile lowGlobals (mkEntry nameUpper 2 100) smallDisk 2
        = Outcome.returned
            (true, { ok := true
                     currentCluster := 0x0FFF
                     outputBuffer := 128
                     written := List.replicate 64 0xAA ++ smallDir
                     reads := [(3, 1), (2, 1)] }) ∧
      clusterLba smallGlobals 1 = 2 ∧ clusterLba lowGlobals 1 = 2 ∧
      2 < smallGlobals.g_RootDirectoryEnd.val ∧ 2 < lowGlobals.g_RootDirectoryEnd.val := by
  decide

/-- C9, amended: in every state in which a run of `readFile` is observed (after any
number of iterations, or on return), each read issued fetches `SectorsPerCluster`
sectors of a cluster number `c` that is either the entry's `FirstClusterLow` or a
decoded FAT value below `0x0FF7`, at the LBA computed from `c`; `readFile` does not
examine whether `c ≥ 2`, and for every such `c ≥ 2` the LBA is
`g_RootDirectoryEnd + (c - 2) * SectorsPerCluster`, not below `g_RootDirectoryEnd`. -/
theorem readFile_reads_clusters (G : Globals) (fileEntry : DirectoryEntry) (disk : List Byte)
    (fuel : Nat) (ret : Bool) (st : ReadState) (hG : Loaded G)
    (h : readFile G fileEntry disk fuel = Outcome.returned (ret, st)
      ∨ readFile G fileEntry disk fuel = Outcome.outOfFuel st) :
    ∀ r ∈ st.reads, ∃ c,
      (c = fileEntry.FirstClusterLow.val
          ∨ ∃ p, nextCluster G.g_Fat p = some c ∧ c < 0x0FF7) ∧
        r = (clusterLba G c, G.g_BootSector.SectorsPerCluster.val) ∧
        (2 ≤ c →
          r.1 = G.g_RootDirectoryEnd.val + (c - 2) * G.g_BootSector.SectorsPerCluster.val ∧
            G.g_RootDirectoryEnd.val ≤ r.1) := by
  obtain ⟨hloop, -⟩ := readFile_cases G fileEntry disk fuel ret st h
  intro r hr
  obtain ⟨c, hc, hrc⟩ := readFileLoop_reads G disk fileEntry.FirstClusterLow.val fuel
    (initialState fileEntry) st rfl rfl rfl hloop r hr
  refine ⟨c, hc, hrc, ?_⟩
  intro h2
  have hlt : c < 65536 := by
    rcases hc with hc | ⟨p, hp, -⟩
    · rw [hc]; exact fileEntry.FirstClusterLow.isLt
    · have := nextCluster_le G.g_Fat p c hp; omega
  have hex := clusterLba_exact G hG c h2 hlt
  rw [hrc]
  show clusterLba G c = _ ∧ _ ≤ clusterLba G c
  rw [hex]
  exact ⟨rfl, Nat.le_add_right _ _⟩

/-- Witness of C9 (amended): the second read of the file of the small image, that
of cluster 3 at LBA 4. -/
theorem readFile_reads_clusters_witness :
    Loaded smallGlobals ∧
      ∃ c,
        (c = (mkEntry nameUpper 2 100).FirstClusterLow.val
            ∨ ∃ p, nextCluster smallGlobals.g_Fat p = some c ∧ c < 0x0FF7) ∧
          ((4, 1) : Nat × Nat)
            = (clusterLba smallGlobals c, smallGlobals.g_BootSector.SectorsPerCluster.val) ∧
          (2 ≤ c →
            4 = smallGlobals.g_RootDirectoryEnd.val
                + (c - 2) * smallGlobals.g_BootSector.SectorsPerCluster.val ∧
              smallGlobals.g_RootDirectoryEnd.val ≤ 4) :=
  ⟨by decide,
   readFile_reads_clusters smallGlobals (mkEntry nameUpper 2 100) smallDisk 2 true
    { ok := true
      currentCluster := 0x0FFF
      outputBuffer := 128
      written := List.replicate 64 0xAA ++ List.replicate 64 0xBB
      reads := [(3, 1), (4, 1)] } (by decide) (Or.inl (by decide)) (4, 1) (by decide)⟩

/-- C11, evaluation at the failing input: on the 360 KB image (512-byte sectors, two
sectors per cluster) for an entry with first cluster 2 and `Size = 100`, `main`
allocates `100 + 512 = 612` bytes, fewer than the 1024 bytes of `Size` rounded up to
whole clusters, and `readFile` returns `true` after storing the 1024 bytes of the
cluster through `outputBuffer`. -/
theorem main_buffer_overrun :
    outputBufferSize pairGlobals (mkEntry nameUpper 2 100) = 612 ∧
      (100 + 2 * 512 - 1) / (2 * 512) * 2 * 512 = 1024 ∧
      pairGlobals.g_BootSector.SectorsPerCluster.val = 2 ∧
      pairGlobals.g_BootSector.BytesPerSector.val = 512 ∧
      (mkEntry nameUpper 2 100).Size.val = 100 ∧
      readFile pairGlobals (mkEntry nameUpper 2 100) pairDisk 1
        = Outcome.returned
            (true, { ok := true
                     currentCluster := 0x0FFF
                     outputBuffer := 1024
                     written := List.replicate 1024 0x41
                     reads := [(12, 2)] }) ∧
      (List.replicate 1024 (0x41 : Byte)).length = 1024 := by
  refine ⟨by decide, by decide, by decide, by decide, by decide, ?_, List.length_replicate _ _⟩
  have hr : Readable pairGlobals pairDisk
      (initialState (mkEntry nameUpper 2 100)).currentCluster := by
    show (readSectors pairGlobals pairDisk (clusterLba pairGlobals 2) 2).1 = true
    rw [pairDisk_cluster]
  have hd : clusterData pairGlobals pairDisk 2 = List.replicate 1024 0x41 := by
    show (readSectors pairGlobals pairDisk (clusterLba pairGlobals 2) 2).2 = _
    rw [pairDisk_cluster]
  have hloop := readFileLoop_last pairGlobals pairDisk
    (initialState (mkEntry nameUpper 2 100)) 0x0FFF 0 rfl hr pairFat_entry (by decide)
  rw [readFile_eq _ _ _ _ _ hloop]
  have hs : (initialState (mkEntry nameUpper 2 100)).currentCluster = 2 := rfl
  have hb : clusterBytes pairGlobals = 1024 := rfl
  have hc : clusterRead pairGlobals 2 = (12, 2) := by decide
  have hw : (initialState (mkEntry nameUpper 2 100)).written = [] := rfl
  have hrd : (initialState (mkEntry nameUpper 2 100)).reads = [] := rfl
  have ho : (initialState (mkEntry nameUpper 2 100)).outputBuffer = 0 := rfl
  simp only [advance, hs, List.map_cons, List.map_nil, List.flatten_cons, List.flatten_nil, hd,
    hb, hc, hw, hrd, ho, List.nil_append, List.append_nil]
  rfl

/-- C12, counterexample: on the small image (384 bytes, 64-byte sectors) a read of 0
sectors at LBA 1000, far past the end, succeeds; a read of one sector at LBA
`2 ^ 26`, whose byte offset `2 ^ 32` wraps to 0, succeeds; and with a sector size of 0
a read of one sector at LBA 0 fails although `0 * 0 + 1 * 0 ≤ 384`. -/
theorem readSectors_not_iff_fits :
    ((readSectors smallGlobals smallDisk 1000 0).1 = true
        ∧ ¬ (1000 * 64 + 0 * 64 ≤ smallDisk.length)) ∧
      ((readSectors smallGlobals smallDisk 67108864 1).1 = true
        ∧ ¬ (67108864 * 64 + 1 * 64 ≤ smallDisk.length)) ∧
      ((readSectors zeroSectorGlobals smallDisk 0 1).1 = false
        ∧ 0 * 0 + 1 * 0 ≤ smallDisk.length) ∧
      smallGlobals.g_BootSector.BytesPerSector.val = 64 ∧
      zeroSectorGlobals.g_BootSector.BytesPerSector.val = 0 := by
  decide

/-- C12, amended: with a sector size `b > 0`, a count `> 0` and a byte offset
`lba * b` below `2 ^ 32`, `readSectors(lba, count)` returns `true` exactly when the
image holds `count * b` bytes from the offset `lba * b` on; it then stores exactly
the `count * b` bytes at the offsets `[lba * b, lba * b + count * b)`; and when it
returns `false` fewer than `count * b` bytes were transferred: a short read is
reported as a failure. A read of 0 sectors returns `true` at any offset, and with a
sector size of 0 a read of one or more sectors returns `false`. -/
theorem readSectors_exact (G : Globals) (disk : List Byte) (lba count : Nat) :
    (0 < G.g_BootSector.BytesPerSector.val → 0 < count →
      lba * G.g_BootSector.BytesPerSector.val < 4294967296 →
      ((readSectors G disk lba count).1 = true ↔
          lba * G.g_BootSector.BytesPerSector.val
            + count * G.g_BootSector.BytesPerSector.val ≤ disk.length) ∧
        ((readSectors G disk lba count).1 = true →
          (readSectors G disk lba count).2
              = (disk.drop (lba * G.g_BootSector.BytesPerSector.val)).take
                  (count * G.g_BootSector.BytesPerSector.val) ∧
            (readSectors G disk lba count).2.length
              = count * G.g_BootSector.BytesPerSector.val) ∧
        ((readSectors G disk lba count).1 = false →
          (readSectors G disk lba count).2.length
            < count * G.g_BootSector.BytesPerSector.val)) ∧
      (count = 0 → (readSectors G disk lba count).1 = true) ∧
      (G.g_BootSector.BytesPerSector.val = 0 → 0 < count →
        (readSectors G disk lba count).1 = false) := by
  have hiff := readSectors_ok_iff G disk lba count
  have hsnd := readSectors_snd G disk lba count
  refine ⟨?_, fun h0 => hiff.2 (Or.inl h0), ?_⟩
  · intro hb hc hlt
    rw [Nat.mod_eq_of_lt hlt] at hiff hsnd
    refine ⟨?_, ?_, ?_⟩
    · rw [hiff]
      constructor
      · rintro (h | ⟨-, h⟩)
        · omega
        · exact h
      · intro h; exact Or.inr ⟨hb, h⟩
    · intro h
      exact ⟨hsnd, readSectors_length_of_ok G disk lba count h⟩
    · intro h
      have hne : ¬ (lba * G.g_BootSector.BytesPerSector.val
          + count * G.g_BootSector.BytesPerSector.val ≤ disk.length) := by
        intro hfit
        have := hiff.2 (Or.inr ⟨hb, hfit⟩)
        rw [h] at this
        cases this
      rw [hsnd, List.length_take, List.length_drop]
      have hpos := Nat.mul_pos hc hb
      exact Nat.lt_of_le_of_lt (Nat.min_le_right _ _) (by omega)
  · intro hb hc
    cases hr : (readSectors G disk lba count).1 with
    | false => rfl
    | true =>
      rcases hiff.1 hr with h | ⟨h, -⟩
      · omega
      · omega

/-- Witness of C12 (amended): the sector at LBA 3 of the small image, the 64 bytes
`0xAA` of cluster 2. -/
theorem readSectors_exact_witness :
    (0 < smallGlobals.g_BootSector.BytesPerSector.val ∧ 0 < 1
        ∧ 3 * smallGlobals.g_BootSector.BytesPerSector.val < 4294967296) ∧
      ((readSectors smallGlobals smallDisk 3 1).1 = true ↔
        3 * smallGlobals.g_BootSector.BytesPerSector.val
          + 1 * smallGlobals.g_BootSector.BytesPerSector.val ≤ smallDisk.length) ∧
      (readSectors smallGlobals smallDisk 3 1).2 = List.replicate 64 0xAA :=
  ⟨by decide,
   ((readSectors_exact smallGlobals smallDisk 3 1).1 (by decide) (by decide) (by decide)).1,
   (((readSectors_exact smallGlobals smallDisk 3 1).1 (by decide) (by decide)
      (by decide)).2.1 (by decide)).1.trans (by decide)⟩

/-- C13: `readBootSector` returns `false` exactly when the image holds fewer than 62
bytes, the size of the packed record; otherwise `g_BootSector` holds the
little-endian values at the fixed offsets: `BytesPerSector` at bytes 11-12,
`SectorsPerCluster` at 13, `ReservedSectors` at 14-15, `FatCount` at 16,
`DirEntryCount` at 17-18, `TotalSectors` at 19-20, `MediaDescriptorType` at 21 and
`SectorsPerFat` at 22-23. Nothing else is examined: 62 zero bytes are accepted and
give a sector size of 0. -/
theorem readBootSector_layout (disk : List Byte) :
    ((readBootSector disk).1 = false ↔ disk.length < sizeofBootSector) ∧
      sizeofBootSector = 62 ∧
      (62 ≤ disk.length →
        (readBootSector disk).2.BytesPerSector.val = le16 disk 11 ∧
        (readBootSector disk).2.SectorsPerCluster.val = (disk.getD 13 0).val ∧
        (readBootSector disk).2.ReservedSectors.val = le16 disk 14 ∧
        (readBootSector disk).2.FatCount.val = (disk.getD 16 0).val ∧
        (readBootSector disk).2.DirEntryCount.val = le16 disk 17 ∧
        (readBootSector disk).2.TotalSectors.val = le16 disk 19 ∧
        (readBootSector disk).2.MediaDescriptorType.val = (disk.getD 21 0).val ∧
        (readBootSector disk).2.SectorsPerFat.val = le16 disk 22) ∧
      ((readBootSector (List.replicate 62 0)).1 = true ∧
        (readBootSector (List.replicate 62 0)).2.BytesPerSector.val = 0) := by
  refine ⟨?_, rfl, ?_, by decide⟩
  · by_cases h : 62 ≤ disk.length
    · rw [readBootSector_eq disk h]
      simp only [sizeofBootSector]
      constructor
      · intro h'; cases h'
      · intro h'; omega
    · have hl : (disk.take 62).length / 62 = 0 := by
        rw [List.length_take]; omega
      simp only [readBootSector, fread, sizeofBootSector, List.drop_zero, Nat.mul_one, hl]
      constructor
      · intro _; omega
      · intro _; decide
  · intro h
    rw [readBootSector_eq disk h]
    have hget : ∀ off, off < 62 → (disk.take 62).getD off 0 = disk.getD off 0 :=
      fun off hoff => byteAt_take disk 62 off hoff
    simp only [overlayBootSector, u16At, le16, byteAt]
    simp only [hget 11 (by decide), hget (11 + 1) (by decide), hget 13 (by decide),
      hget 14 (by decide), hget (14 + 1) (by decide), hget 16 (by decide),
      hget 17 (by decide), hget (17 + 1) (by decide), hget 19 (by decide),
      hget (19 + 1) (by decide), hget 21 (by decide), hget 22 (by decide),
      hget (22 + 1) (by decide), and_self]

/-- Witness of C13: the 62 bytes of the floppy boot sector are parsed to the floppy
geometry. -/
theorem readBootSector_layout_witness :
    62 ≤ floppyBootBytes.length ∧
      (readBootSector floppyBootBytes).2.BytesPerSector.val = 512 ∧
      readBootSector floppyBootBytes = (true, floppyBoot) :=
  ⟨by decide,
   ((readBootSector_layout floppyBootBytes).2.2.1 (by decide)).1.trans (by decide),
   by decide⟩

/-- C14: whenever the two bytes of the entry of cluster `c` lie in the FAT buffer,
the value that the loop body of `readFile` decodes and assigns to `currentCluster`
lies in `[0, 0x0FFF]` (and so fits the `uint16_t`), for even and for odd `c`. -/
theorem readFile_decode_range (G : Globals) (disk : List Byte) (s : ReadState)
    (h : s.currentCluster * 3 / 2 + 1 < G.g_Fat.length) :
    ∃ v, nextCluster G.g_Fat s.currentCluster = some v ∧ v ≤ 0x0FFF ∧ v < 65536 ∧
      ∃ s', loopBody G disk s = some s' ∧ s'.currentCluster = v := by
  have hn := nextCluster_eq G.g_Fat s.currentCluster h
  have hle := nextCluster_le G.g_Fat s.currentCluster _ hn
  refine ⟨_, hn, hle, by omega, ?_⟩
  rw [loopBody_eq_fetch, hn]
  exact ⟨_, rfl, rfl⟩

/-- Witness of C14: the entries of the clusters 2 (even) and 3 (odd) of the small
image decode to 3 and `0x0FFF`. -/
theorem readFile_decode_range_witness :
    (initialState (mkEntry nameUpper 3 100)).currentCluster * 3 / 2 + 1
        < smallGlobals.g_Fat.length ∧
      ∃ v, nextCluster smallGlobals.g_Fat 3 = some v ∧ v ≤ 0x0FFF :=
  ⟨by decide,
   (readFile_decode_range smallGlobals smallDisk (initialState (mkEntry nameUpper 3 100))
      (by decide)).elim (fun v h => ⟨v, h.1, h.2.1⟩)⟩

/-- C15: two directory entries with the same `FirstClusterLow`, whatever their
`Size`, `Name`, `Attributes` and `FirstClusterHigh`, give the same run of `readFile`
over the same globals and image: the same returned value, the same bytes written,
the same reads. The truncation to `Size` is made by the print loop of `main`, which
writes the rendering of the first `Size` bytes of the buffer and a new line. -/
theorem readFile_ignores_size (G : Globals) (entry entry' : DirectoryEntry)
    (disk : List Byte) (fuel : Nat) (h : entry.FirstClusterLow = entry'.FirstClusterLow) :
    readFile G entry disk fuel = readFile G entry' disk fuel ∧
      ∀ buffer : List Byte, entry.Size.val ≤ buffer.length →
        printFile buffer entry
          = some ((buffer.take entry.Size.val).flatMap printByte ++ [0x0A]) := by
  refine ⟨?_, ?_⟩
  · have hs : initialState entry = initialState entry' := by
      simp [initialState, h]
    unfold readFile
    rw [hs]
  · intro buffer hb
    unfold printFile
    rw [printFrom_eq buffer _ 0 (by omega)]
    rfl

/-- Witness of C15: on the small image the entries with sizes 100 and 5 and first
cluster 2 are read alike, and the print loop on the 128 bytes read writes 5 of them
for the second one. -/
theorem readFile_ignores_size_witness :
    readFile smallGlobals (mkEntry nameUpper 2 100) smallDisk 2
        = readFile smallGlobals (mkEntry nameLower 2 5) smallDisk 2 ∧
      printFile (List.replicate 64 0x41 ++ List.replicate 64 0x42) (mkEntry nameLower 2 5)
        = some [0x41, 0x41, 0x41, 0x41, 0x41, 0x0A] :=
  ⟨(readFile_ignores_size smallGlobals (mkEntry nameUpper 2 100) (mkEntry nameLower 2 5)
      smallDisk 2 (by decide)).1,
   by decide⟩

/-- C16: for a table of 12-bit values packed two entries per three bytes, the
decoding step of `readFile` at every index `i` whose two bytes lie in the packed
buffer returns the `i`-th value (0 for the partner that completes a table of odd
length); the bytes of every entry of the table lie in the buffer; and the value
decoded at `i` does not change when another entry of the table is replaced. The
bytes `F0 FF FF 03 40 00 05 60 00 07 80 00` of the source comment are the packing of
`FF0 FFF 003 004 005 006 007 008` and decode to these values. -/
theorem packFat_round_trip (tbl : List Nat) (htbl : ∀ x ∈ tbl, x < 4096) :
    (∀ i, i * 3 / 2 + 1 < (packFat tbl).length →
        nextCluster (packFat tbl) i = some (tbl.getD i 0)) ∧
      (∀ i, i < tbl.length → i * 3 / 2 + 1 < (packFat tbl).length) ∧
      (∀ i j x, j ≠ i → x < 4096 → i * 3 / 2 + 1 < (packFat tbl).length →
        nextCluster (packFat (tbl.set j x)) i = nextCluster (packFat tbl) i) ∧
      (packFat [0xFF0, 0xFFF, 0x003, 0x004, 0x005, 0x006, 0x007, 0x008] = commentFat ∧
        [0, 1, 2, 3, 4, 5, 6, 7].map (nextCluster commentFat)
          = [some 0xFF0, some 0xFFF, some 0x003, some 0x004, some 0x005, some 0x006,
             some 0x007, some 0x008]) := by
  refine ⟨nextCluster_packFat_getD tbl htbl, ?_, ?_, by decide, by decide⟩
  · intro i hi
    rw [packFat_length]; omega
  · intro i j x hji hx hi
    have hset : ∀ y ∈ tbl.set j x, y < 4096 := by
      intro y hy
      rcases List.mem_or_eq_of_mem_set hy with hy | hy
      · exact htbl y hy
      · omega
    have hlen : (packFat (tbl.set j x)).length = (packFat tbl).length := by
      rw [packFat_length, packFat_length, List.length_set]
    rw [nextCluster_packFat_getD _ hset i (by rw [hlen]; exact hi),
      nextCluster_packFat_getD tbl htbl i hi, List.getD_eq_getElem?_getD,
      List.getD_eq_getElem?_getD, List.getElem?_set_ne hji]

/-- Witness of C16: index 3 of the table of the source comment. -/
theorem packFat_round_trip_witness :
    3 * 3 / 2 + 1
        < (packFat [0xFF0, 0xFFF, 0x003, 0x004, 0x005, 0x006, 0x007, 0x008]).length ∧
      nextCluster (packFat [0xFF0, 0xFFF, 0x003, 0x004, 0x005, 0x006, 0x007, 0x008]) 3
        = some 0x004 :=
  ⟨by decide,
   ((packFat_round_trip [0xFF0, 0xFFF, 0x003, 0x004, 0x005, 0x006, 0x007, 0x008]
      (by decide)).1 3 (by decide)).trans (by decide)⟩

/-- C17: the decoding of the entry of cluster `c` depends on the FAT bytes at the
offsets `c * 3 / 2` and `c * 3 / 2 + 1` only, and is defined exactly when both lie in
the buffer; a successful `readFat` leaves `SectorsPerFat * BytesPerSector` bytes in
`g_Fat`; and if `g_Fat` holds at least 6131 bytes and `FirstClusterLow < 0x0FF7`,
no run of `readFile` makes a FAT access outside the buffer: the run never ends in
the undefined outcome, and every state at the head of the loop holds a cluster
number whose two FAT bytes lie in the buffer. -/
theorem readFile_fat_in_bounds (G : Globals) (fileEntry : DirectoryEntry) (disk : List Byte)
    (fuel : Nat) (hlen : 6131 ≤ G.g_Fat.length)
    (hfirst : fileEntry.FirstClusterLow.val < 0x0FF7) :
    (∀ c, nextCluster G.g_Fat c = none ↔ G.g_Fat.length ≤ c * 3 / 2 + 1) ∧
      (∀ (fat' : List Byte) (c : Nat), G.g_Fat[c * 3 / 2]? = fat'[c * 3 / 2]? →
        G.g_Fat[c * 3 / 2 + 1]? = fat'[c * 3 / 2 + 1]? →
        nextCluster G.g_Fat c = nextCluster fat' c) ∧
      (∀ image : List Byte, (readFat G image).1 = true →
        (readFat G image).2.g_Fat.length
          = G.g_BootSector.SectorsPerFat.val * G.g_BootSector.BytesPerSector.val) ∧
      (∀ u, readFile G fileEntry disk fuel ≠ Outcome.undefinedBehaviour u) ∧
      ∀ st, readFile G fileEntry disk fuel = Outcome.outOfFuel st →
        st.currentCluster * 3 / 2 + 1 < G.g_Fat.length := by
  have hloop := readFileLoop_in_bounds G disk hlen fuel (initialState fileEntry) hfirst
  refine ⟨nextCluster_eq_none_iff G.g_Fat, nextCluster_congr G.g_Fat,
    fun image h => readSectors_length_of_ok G image _ _ h, ?_, ?_⟩
  · intro u
    unfold readFile
    cases hl : readFileLoop G disk fuel (initialState fileEntry) with
    | returned s => intro h; cases h
    | undefinedBehaviour s => exact absurd hl (hloop.1 s)
    | outOfFuel s => intro h; cases h
  · intro st hst
    unfold readFile at hst
    cases hl : readFileLoop G disk fuel (initialState fileEntry) with
    | returned s => rw [hl] at hst; cases hst
    | undefinedBehaviour s => rw [hl] at hst; cases hst
    | outOfFuel s =>
      rw [hl] at hst
      simp only [Outcome.outOfFuel.injEq] at hst
      have := hloop.2 s hl
      rw [← hst]
      omega

/-- Witness of C17: the FAT of the big image holds 6144 bytes, and the run from
cluster 2 stays inside it. -/
theorem readFile_fat_in_bounds_witness :
    6131 ≤ bigGlobals.g_Fat.length ∧
      (mkEntry nameUpper 2 512).FirstClusterLow.val < 0x0FF7 ∧
      ∀ u, readFile bigGlobals (mkEntry nameUpper 2 512) bigDisk 3
        ≠ Outcome.undefinedBehaviour u :=
  ⟨Nat.le_of_lt_succ (by rw [show bigGlobals.g_Fat = bigFat from rfl, bigFat_length]; decide),
   by decide,
   (readFile_fat_in_bounds bigGlobals (mkEntry nameUpper 2 512) bigDisk 3
      (Nat.le_of_lt_succ
        (by rw [show bigGlobals.g_Fat = bigFat from rfl, bigFat_length]; decide))
      (by decide)).2.2.2.1⟩

/-- C18: `readFile` fetches the first cluster before any FAT value is examined. For
every entry (whatever its `Size` and `FirstClusterLow`), every FAT, image and every
fuel of at least one unit, the run of `readFile` ends in one of the three outcomes
(returned, still running, FAT access outside `g_Fat`), and in the state of that
outcome the first read issued is that of `SectorsPerCluster` sectors at the LBA
`(g_RootDirectoryEnd + (FirstClusterLow - 2) * SectorsPerCluster) mod 2^32` and
`outputBuffer` has advanced by at least `SectorsPerCluster * BytesPerSector` bytes. -/
theorem readFile_first_fetch (G : Globals) (fileEntry : DirectoryEntry) (disk : List Byte)
    (fuel : Nat) (hfuel : 1 ≤ fuel) :
    ∃ st,
      (readFile G fileEntry disk fuel
            = Outcome.returned (st.ok && decide (st.currentCluster ≠ 0x0FF7), st)
          ∨ readFile G fileEntry disk fuel = Outcome.outOfFuel st
          ∨ readFile G fileEntry disk fuel = Outcome.undefinedBehaviour st) ∧
        st.reads.head?
          = some ((((G.g_RootDirectoryEnd.val : Int)
                    + ((fileEntry.FirstClusterLow.val : Int) - 2)
                      * (G.g_BootSector.SectorsPerCluster.val : Int))
                  % 4294967296).toNat,
                G.g_BootSector.SectorsPerCluster.val) ∧
        G.g_BootSector.SectorsPerCluster.val * G.g_BootSector.BytesPerSector.val
          ≤ st.outputBuffer := by
  obtain ⟨k, rfl⟩ : ∃ k, fuel = k + 1 := ⟨fuel - 1, by omega⟩
  have hf : (fetchCluster G disk (initialState fileEntry)).reads.head?
        = some ((((G.g_RootDirectoryEnd.val : Int)
                  + ((fileEntry.FirstClusterLow.val : Int) - 2)
                    * (G.g_BootSector.SectorsPerCluster.val : Int))
                % 4294967296).toNat,
              G.g_BootSector.SectorsPerCluster.val) ∧
      G.g_BootSector.SectorsPerCluster.val * G.g_BootSector.BytesPerSector.val
        ≤ (fetchCluster G disk (initialState fileEntry)).outputBuffer := by
    refine ⟨?_, ?_⟩
    · simp only [fetchCluster, initialState, if_true, List.nil_append, List.head?_cons]
      rfl
    · simp [fetchCluster, initialState]
  have hloop : ∃ st,
      (readFileLoop G disk (k + 1) (initialState fileEntry) = Outcome.returned st
        ∨ readFileLoop G disk (k + 1) (initialState fileEntry) = Outcome.outOfFuel st
        ∨ readFileLoop G disk (k + 1) (initialState fileEntry)
            = Outcome.undefinedBehaviour st) ∧
      st.reads.head?
        = some ((((G.g_RootDirectoryEnd.val : Int)
                  + ((fileEntry.FirstClusterLow.val : Int) - 2)
                    * (G.g_BootSector.SectorsPerCluster.val : Int))
                % 4294967296).toNat,
              G.g_BootSector.SectorsPerCluster.val) ∧
      G.g_BootSector.SectorsPerCluster.val * G.g_BootSector.BytesPerSector.val
        ≤ st.outputBuffer := by
    unfold readFileLoop
    rw [loopBody_eq_fetch]
    cases nextCluster G.g_Fat (initialState fileEntry).currentCluster with
    | none => exact ⟨_, Or.inr (Or.inr rfl), hf⟩
    | some v =>
      simp only [Option.map_some']
      by_cases hc : ((fetchCluster G disk (initialState fileEntry)).ok
          && decide (v < 0x0FF7)) = true
      · rw [if_pos hc]
        exact readFileLoop_first_read G disk _ _ k _ hf
      · rw [if_neg hc]
        exact ⟨_, Or.inl rfl, hf⟩
  obtain ⟨st, hst, hprop⟩ := hloop
  refine ⟨st, ?_, hprop⟩
  unfold readFile
  rcases hst with h | h | h
  · left; rw [h]
  · right; left; rw [h]
  · right; right; rw [h]

/-- Witness of C18 on the small image, whose data region starts at LBA 3, for
entries with `Size = 0`: with the end mark `0x0FF8` as first cluster the read is
issued at LBA 4089 before the FAT access leaves the buffer; with first cluster 0 it
is issued at LBA 1 and the run goes on; with first cluster 1 it is issued at LBA 2
and `readFile` returns `true`. -/
theorem readFile_first_fetch_witness :
    (1 : Nat) ≤ 1 ∧
      (∃ st,
        (readFile smallGlobals (mkEntry nameUpper 0x0FF8 0) smallDisk 1
              = Outcome.returned (st.ok && decide (st.currentCluster ≠ 0x0FF7), st)
            ∨ readFile smallGlobals (mkEntry nameUpper 0x0FF8 0) smallDisk 1
              = Outcome.outOfFuel st
            ∨ readFile smallGlobals (mkEntry nameUpper 0x0FF8 0) smallDisk 1
              = Outcome.undefinedBehaviour st) ∧
          st.reads.head? = some (4089, 1) ∧ 64 ≤ st.outputBuffer) ∧
      readFile smallGlobals (mkEntry nameUpper 0x0FF8 0) smallDisk 1
        = Outcome.undefinedBehaviour
            { ok := false
              currentCluster := 0x0FF8
              outputBuffer := 64
              written := []
              reads := [(4089, 1)] } ∧
      readFile smallGlobals (mkEntry nameUpper 0 0) smallDisk 1
        = Outcome.outOfFuel
            { ok := true
              currentCluster := 0x0FF0
              outputBuffer := 64
              written := smallFat
              reads := [(1, 1)] } ∧
      readFile smallGlobals (mkEntry nameUpper 1 0) smallDisk 1
        = Outcome.returned
            (true, { ok := true
                     currentCluster := 0x0FFF
                     outputBuffer := 64
                     written := smallDir
                     reads := [(2, 1)] }) :=
  ⟨by decide,
   (readFile_first_fetch smallGlobals (mkEntry nameUpper 0x0FF8 0) smallDisk 1
      (by decide)).elim
    (fun st h => ⟨st, h.1, h.2.1.trans (by decide), h.2.2⟩),
   by decide, by decide, by decide⟩


end Fat12
